import Mathlib

/-!
Shallow embedding of the bulletproofs aggregated range-proof core
(`src/range_proof/mod.rs`, `src/range_proof.rs`,
`src/aggregated_range_proof/{party,messages}.rs`), over an abstract scalar
field `F` and point module `Pt`.  Modules of the repository that are not part
of the provided sources (`util.rs`, `generators.rs`, `inner_product_proof.rs`,
`src/range_proof/{party,dealer,messages}.rs`) are modelled from the
specification where a claim depends on them; each such definition carries a
doc comment starting with "Modelled from the spec".
-/

namespace Bulletproofs

/-- Sum of the first `k` powers of `x`.  Modelled from the spec (`util.rs` is
not in src/): "power sequences (1, x, x², …)"; `util::sum_of_powers x k` is the
sum of the first `k` of them, as used by `delta` in `src/range_proof/mod.rs`. -/
def sumOfPowers {F : Type} [CommRing F] (x : F) (k : Nat) : F :=
  ((List.range k).map (fun i => x ^ i)).sum

/-- Embedded from `delta` in `src/range_proof/mod.rs` lines 359-365:
`(z - z * z) * sum_y - z * z * z * sum_2 * sum_z` where `sum_y`, `sum_2`,
`sum_z` are `sum_of_powers` of `y` (count `n*m`), `2` (count `n`) and `z`
(count `m`). -/
def delta {F : Type} [CommRing F] (n m : Nat) (y z : F) : F :=
  (z - z * z) * sumOfPowers y (n * m) - z * z * z * sumOfPowers (2 : F) n * sumOfPowers z m

/-- Inner product of two scalar vectors.  Modelled from the spec (`util.rs` is
not in src/): "vector inner product" `⟨a, b⟩ = Σ aᵢ·bᵢ`. -/
def innerProduct {F : Type} [CommRing F] (a b : List F) : F :=
  (List.zipWith (fun x y => x * y) a b).sum

/-- Pointwise sum of two scalar vectors.  Modelled from the spec (`util.rs` is
not in src/): "vector addition". -/
def addVec {F : Type} [CommRing F] (a b : List F) : List F :=
  List.zipWith (fun x y => x + y) a b

/-- Degree-2 scalar polynomial `t₀ + t₁·X + t₂·X²` (the source's
`util::Poly2`, also `PolyDeg3` in `src/range_proof.rs` line 24). -/
structure Poly2 (F : Type) where
  t0 : F
  t1 : F
  t2 : F

/-- Evaluation of a degree-2 scalar polynomial at `x`.  Modelled from the spec
(`util.rs` is not in src/): "t_x = t₀ + x·t₁ + x²·t₂", in Horner form. -/
def Poly2.eval {F : Type} [CommRing F] (t : Poly2 F) (x : F) : F :=
  t.t0 + x * (t.t1 + x * t.t2)

/-- Degree-1 vector polynomial `c0 + c1·X`, embedded from `VecPoly2` in
`src/range_proof.rs` line 26 (a pair of scalar vectors); the source's
`util::VecPoly1` used by `src/aggregated_range_proof/party.rs` has the same
shape. -/
structure VecPoly2 (F : Type) where
  c0 : List F
  c1 : List F

/-- Embedded from `VecPoly2::inner_product` in `src/range_proof.rs` lines
282-296 (Karatsuba): `t0 = ⟨l.0, r.0⟩`, `t2 = ⟨l.1, r.1⟩`,
`t1 = ⟨l.0 + l.1, r.0 + r.1⟩ - t0 - t2`. -/
def VecPoly2.innerProduct {F : Type} [CommRing F] (l r : VecPoly2 F) : Poly2 F :=
  let t0 := Bulletproofs.innerProduct l.c0 r.c0
  let t2 := Bulletproofs.innerProduct l.c1 r.c1
  let l0_plus_l1 := addVec l.c0 l.c1
  let r0_plus_r1 := addVec r.c0 r.c1
  let t1 := Bulletproofs.innerProduct l0_plus_l1 r0_plus_r1 - t0 - t2
  ⟨t0, t1, t2⟩

/-- Embedded from `VecPoly2::eval` in `src/range_proof.rs` lines 298-305:
`out[i] = self.0[i] + self.1[i] * x`. -/
def VecPoly2.eval {F : Type} [CommRing F] (p : VecPoly2 F) (x : F) : List F :=
  List.zipWith (fun a b => a + b * x) p.c0 p.c1

/-- Pedersen generator pair `(B, B_blinding)` (spec §3). -/
structure PedersenGens (Pt : Type) where
  B : Pt
  B_blinding : Pt

/-- Pedersen commitment.  Modelled from the spec (`generators.rs` is not in
src/): `commit(v, r) = v·B + r·B_blinding`. -/
def PedersenGens.commit {F Pt : Type} [CommRing F] [AddCommGroup Pt] [Module F Pt]
    (pg : PedersenGens Pt) (v r : F) : Pt :=
  v • pg.B + r • pg.B_blinding

/-- Generator table.  Modelled from the spec (`generators.rs` is not in src/):
a matrix of generator vectors dimensioned `party_capacity × gens_capacity` for
G and for H, plus the Pedersen pair. -/
structure Generators (Pt : Type) where
  gens_capacity : Nat
  party_capacity : Nat
  G_vec : List (List Pt)
  H_vec : List (List Pt)
  pedersen_gens : PedersenGens Pt

/-- One party's share of the generator table (spec §3: `share(j)` returns the
j-th party's pair of length-n slices plus the Pedersen generators). -/
structure GeneratorsShare (Pt : Type) where
  G : List Pt
  H : List Pt
  pedersen_gens : PedersenGens Pt

/-- Modelled from the spec (`generators.rs` is not in src/): `share(j)`
returns the j-th party's generator vectors and the Pedersen pair. -/
def Generators.share {Pt : Type} (gens : Generators Pt) (j : Nat) : GeneratorsShare Pt :=
  ⟨gens.G_vec.getD j [], gens.H_vec.getD j [], gens.pedersen_gens⟩

/-- Modelled from the spec (`generators.rs` is not in src/): `gens.G(n, m)`
iterates over the first `n` entries of each of the first `m` parties'
G vectors (aggregate length `n·m`). -/
def Generators.G {Pt : Type} (gens : Generators Pt) (n m : Nat) : List Pt :=
  ((gens.G_vec.take m).map (fun row => row.take n)).flatten

/-- Modelled from the spec (`generators.rs` is not in src/): `gens.H(n, m)`
iterates over the first `n` entries of each of the first `m` parties'
H vectors. -/
def Generators.H {Pt : Type} (gens : Generators Pt) (n m : Nat) : List Pt :=
  ((gens.H_vec.take m).map (fun row => row.take n)).flatten

/-- Fiat-Shamir transcript interface.  The transcript construction is an
external collaborator (spec §1 "out of scope", §4.1); it is modelled as an
opaque state type `TT` with deterministic append and challenge maps.
`challengeScalar` returns the challenge together with the advanced state. -/
structure TranscriptOps (TT CP F : Type) where
  rangeproofDomainSep : TT → Nat → Nat → TT
  commitPoint : TT → String → CP → TT
  commitScalar : TT → String → F → TT
  challengeScalar : TT → String → F × TT

/-- Error type of the single-proof API, embedded from the variants used by
`src/range_proof/mod.rs` (`errors.rs` itself is not in src/; the spec §7
lists exactly these kinds). -/
inductive ProofError where
  | InvalidBitsize
  | InvalidGeneratorsLength
  | WrongNumBlindingFactors
  | FormatError
  | VerificationError
deriving DecidableEq

/-- Error type of the MPC protocol, from the spec §7 (`errors.rs` is not in
src/): `MaliciousDealer` is the `BadChallenge` condition. -/
inductive MPCError where
  | InvalidBitsize
  | InvalidGeneratorsLength
  | MaliciousDealer
deriving DecidableEq

/-- Inner-product argument proof data, embedded from the `InnerProductProof`
fields used by `src/range_proof/mod.rs`: compressed points `L_vec`, `R_vec`
and final scalars `a`, `b`. -/
structure InnerProductProof (F CP : Type) where
  L_vec : List CP
  R_vec : List CP
  a : F
  b : F
deriving DecidableEq

/-- Embedded from the `RangeProof` struct in `src/range_proof/mod.rs` lines
29-47: compressed points `A, S, T_1, T_2`, scalars `t_x, t_x_blinding,
e_blinding` and the inner-product proof. -/
structure RangeProof (F CP : Type) where
  A : CP
  S : CP
  T_1 : CP
  T_2 : CP
  t_x : F
  t_x_blinding : F
  e_blinding : F
  ipp_proof : InnerProductProof F CP
deriving DecidableEq

section Verify

variable {F : Type} [Field F] [DecidableEq F]
variable {Pt : Type} [AddCommGroup Pt] [Module F Pt] [DecidableEq Pt]
variable {TT CP : Type}

/-- Replay of the inner-product argument rounds.  Modelled from the spec
(`inner_product_proof.rs` is not in src/, §4.3): the verifier re-derives the
challenges `u_j` by feeding each `(L_j, R_j)` pair back into the transcript
and drawing a challenge scalar. -/
def ippChallenges (ops : TranscriptOps TT CP F) : List (CP × CP) → TT → List F × TT
  | [], t => ([], t)
  | (L, R) :: rest, t =>
      let t1 := ops.commitPoint t "L" L
      let t2 := ops.commitPoint t1 "R" R
      let u := (ops.challengeScalar t2 "u").1
      let t3 := (ops.challengeScalar t2 "u").2
      let res := ippChallenges ops rest t3
      (u :: res.1, res.2)

/-- Entry `i` of the verification vector `s`.  Modelled from the spec
(`inner_product_proof.rs` is not in src/, §4.3): `s_i` is the product over the
rounds `j` of `u_j` when the corresponding bit of `i` is set and `u_j⁻¹`
otherwise, with round `j` selecting bit `k-1-j` of `i`. -/
def sVecEntry (us : List F) (i : Nat) : F :=
  ((List.range us.length).map (fun j =>
    if Nat.testBit i (us.length - 1 - j) then us.getD j 1 else (us.getD j 1)⁻¹)).prod

/-- The verification vector `s` of length `2^k` for `k` rounds (spec §4.3). -/
def sVec (us : List F) : List F :=
  (List.range (2 ^ us.length)).map (sVecEntry us)

/-- Challenges replayed by `RangeProof::verify` in `src/range_proof/mod.rs`
lines 170-199: domain separator, all `V_j`, `A`, `S`, then `y`, `z`; `T_1`,
`T_2`, then `x`; `t_x`, `t_x_blinding`, `e_blinding`, then `w`; finally the
inner-product argument rounds producing the `u_j`. -/
structure VerifyChallenges (F : Type) where
  y : F
  z : F
  x : F
  w : F
  us : List F

/-- Transcript replay of `RangeProof::verify` (see `VerifyChallenges`); this
factors out lines 170-199 of `src/range_proof/mod.rs` together with the
transcript part of `verification_scalars`. -/
def RangeProof.verifyChallenges (ops : TranscriptOps TT CP F) (compress : Pt → CP)
    (proof : RangeProof F CP) (value_commitments : List Pt) (t : TT) (n m : Nat) :
    VerifyChallenges F :=
  let t1 := ops.rangeproofDomainSep t n m
  let t2 := value_commitments.foldl (fun acc V => ops.commitPoint acc "V" (compress V)) t1
  let t3 := ops.commitPoint t2 "A" proof.A
  let t4 := ops.commitPoint t3 "S" proof.S
  let y := (ops.challengeScalar t4 "y").1
  let t5 := (ops.challengeScalar t4 "y").2
  let z := (ops.challengeScalar t5 "z").1
  let t6 := (ops.challengeScalar t5 "z").2
  let t7 := ops.commitPoint t6 "T_1" proof.T_1
  let t8 := ops.commitPoint t7 "T_2" proof.T_2
  let x := (ops.challengeScalar t8 "x").1
  let t9 := (ops.challengeScalar t8 "x").2
  let t10 := ops.commitScalar t9 "t_x" proof.t_x
  let t11 := ops.commitScalar t10 "t_x_blinding" proof.t_x_blinding
  let t12 := ops.commitScalar t11 "e_blinding" proof.e_blinding
  let w := (ops.challengeScalar t12 "w").1
  let t13 := (ops.challengeScalar t12 "w").2
  ⟨y, z, x, w,
    (ippChallenges ops (proof.ipp_proof.L_vec.zip proof.ipp_proof.R_vec) t13).1⟩

/-- Sequencing of optional points, embedded from the collection step of
`RistrettoPoint::optional_multiscalar_mul` (curve25519-dalek, external):
the result is `none` as soon as any point failed to decompress. -/
def collectSome {Pt : Type} : List (Option Pt) → Option (List Pt)
  | [] => some []
  | none :: _ => none
  | some P :: rest => (collectSome rest).map (fun ps => P :: ps)

/-- Multi-scalar multiplication over optional points (external
`optional_multiscalar_mul`, spec §3: `msm({a_i}, {P_i}) = Σ a_i·P_i`, with
`none` propagated from any failed decompression). -/
def optionalMSM (scalars : List F) (points : List (Option Pt)) : Option Pt :=
  (collectSome points).map (fun ps => (List.zipWith (fun a P => a • P) scalars ps).sum)

/-- Scalar side of the mega-check multi-scalar multiplication of
`RangeProof::verify` in `src/range_proof/mod.rs` lines 204-233, given the
replayed challenges `ch` and the batching scalar `c`: the coefficients
`1, x, c·x, c·x², x_sq, x_inv_sq, −e_blinding − c·t_x_blinding,
basepoint_scalar, g, h, value_commitment_scalars` in source order (the
`verification_scalars` output `(x_sq, x_inv_sq, s)` is inlined from its spec
model, §4.3, on the replayed challenges `us`). -/
def verifyScalars (proof : RangeProof F CP) (ch : VerifyChallenges F) (c : F)
    (n m : Nat) : List F :=
  let y := ch.y
  let z := ch.z
  let x := ch.x
  let w := ch.w
  let zz := z * z
  let minus_z := -z
  let x_sq := ch.us.map (fun u => u * u)
  let x_inv_sq := ch.us.map (fun u => u⁻¹ * u⁻¹)
  let s := sVec ch.us
  let s_inv := s.reverse
  let a := proof.ipp_proof.a
  let b := proof.ipp_proof.b
  let powers_of_2 := (List.range n).map (fun i => (2 : F) ^ i)
  let concat_z_and_2 :=
    ((List.range m).map (fun j => powers_of_2.map (fun exp_2 => exp_2 * z ^ j))).flatten
  let g := s.map (fun s_i => minus_z - a * s_i)
  let h := List.zipWith
    (fun (p : F × F) z_and_2 => z + p.2 * (zz * z_and_2 - b * p.1))
    (s_inv.zip ((List.range s_inv.length).map (fun i => y⁻¹ ^ i)))
    concat_z_and_2
  let value_commitment_scalars := (List.range m).map (fun j => c * zz * z ^ j)
  let basepoint_scalar := w * (proof.t_x - a * b) + c * (delta n m y z - proof.t_x)
  (1 : F) :: x :: (c * x) :: (c * x * x) ::
    (x_sq ++ x_inv_sq ++
      [-proof.e_blinding - c * proof.t_x_blinding, basepoint_scalar] ++
      g ++ h ++ value_commitment_scalars)

/-- Point side of the mega-check multi-scalar multiplication of
`RangeProof::verify` in `src/range_proof/mod.rs` lines 234-244:
`A, S, T_1, T_2` and the `L_j`, `R_j` decompressed, then `B_blinding`, `B`,
`G(n,m)`, `H(n,m)` and the value commitments, in source order. -/
def verifyPoints (decompress : CP → Option Pt) (gens : Generators Pt)
    (proof : RangeProof F CP) (value_commitments : List Pt) (n m : Nat) :
    List (Option Pt) :=
  decompress proof.A :: decompress proof.S ::
    decompress proof.T_1 :: decompress proof.T_2 ::
    (proof.ipp_proof.L_vec.map decompress ++ proof.ipp_proof.R_vec.map decompress ++
      [some gens.pedersen_gens.B_blinding, some gens.pedersen_gens.B] ++
      (gens.G n m).map some ++ (gens.H n m).map some ++
      value_commitments.map some)

/-- Embedded from `RangeProof::verify` in `src/range_proof/mod.rs` lines
148-252.  The RNG-drawn batching scalar `c` and the (external) transcript are
parameters; compressed points are an abstract type `CP` with an external
`decompress : CP → Option Pt`.  The challenge replay is `verifyChallenges`
and the two sides of the mega-check multi-scalar multiplication are
`verifyScalars` and `verifyPoints`. -/
def RangeProof.verify (ops : TranscriptOps TT CP F) (compress : Pt → CP)
    (decompress : CP → Option Pt) (gens : Generators Pt) (proof : RangeProof F CP)
    (value_commitments : List Pt) (t : TT) (c : F) (n : Nat) : Except ProofError Unit :=
  let m := value_commitments.length
  if ¬(n = 8 ∨ n = 16 ∨ n = 32 ∨ n = 64) then .error .InvalidBitsize
  else if gens.gens_capacity < n then .error .InvalidGeneratorsLength
  else if gens.party_capacity < m then .error .InvalidGeneratorsLength
  else
    let ch := proof.verifyChallenges ops compress value_commitments t n m
    match optionalMSM (verifyScalars proof ch c n m)
        (verifyPoints decompress gens proof value_commitments n m) with
    | none => .error .VerificationError
    | some mega_check => if mega_check = 0 then .ok () else .error .VerificationError

/-- Validation prefix of `RangeProof::prove_multiple` in
`src/range_proof/mod.rs` lines 68-91; the remainder of the proving protocol
(dealer and parties) is abstracted as the continuation `rest`, which is only
reached after all four checks pass. -/
def proveMultiple (values : List Nat) (blindings : List F) (n : Nat)
    (gens : Generators Pt) (rest : Except ProofError (RangeProof F CP)) :
    Except ProofError (RangeProof F CP) :=
  if values.length ≠ blindings.length then .error .WrongNumBlindingFactors
  else if ¬(n = 8 ∨ n = 16 ∨ n = 32 ∨ n = 64) then .error .InvalidBitsize
  else if gens.gens_capacity < n then .error .InvalidGeneratorsLength
  else if gens.party_capacity < values.length then .error .InvalidGeneratorsLength
  else rest

/-- The verification multi-scalar multiplication exactly as written in the
specification's coefficient/base table (§4.6), stated over already
decompressed points and the replayed challenges; this is the spec-side
definition compared against `RangeProof.verify` for the refinement claim. -/
def specMegaCheck (A' S' T1' T2' Bb Bg : Pt) (Ls Rs Gs Hs Vs : List Pt)
    (y z x w c t_x t_x_blinding e_blinding a b : F) (us s : List F) (n m k : Nat) : Pt :=
  A' + x • S' + (c * x) • T1' + (c * x * x) • T2' +
    (∑ j ∈ Finset.range k, ((us.getD j 0) ^ 2) • Ls.getD j 0) +
    (∑ j ∈ Finset.range k, (((us.getD j 0)⁻¹) ^ 2) • Rs.getD j 0) +
    (-e_blinding - c * t_x_blinding) • Bb +
    (w * (t_x - a * b) + c * (delta n m y z - t_x)) • Bg +
    (∑ i ∈ Finset.range (n * m), (-z - a * s.getD i 0) • Gs.getD i 0) +
    (∑ i ∈ Finset.range (n * m),
      (z + y⁻¹ ^ i * (z * z * (z ^ (i / n) * 2 ^ (i % n)) - b * s.getD (n * m - 1 - i) 0)) •
        Hs.getD i 0) +
    (∑ j ∈ Finset.range m, (c * (z * z) * z ^ j) • Vs.getD j 0)

end Verify

section Party

variable {F : Type} [Field F] [DecidableEq F]
variable {Pt : Type} [AddCommGroup Pt] [Module F Pt]

/-- First-round message `(V, A, S)`, embedded from `ValueCommitment` in
`src/aggregated_range_proof/messages.rs` lines 12-17. -/
structure ValueCommitment (Pt : Type) where
  V : Pt
  A : Pt
  S : Pt

/-- Challenge pair `(y, z)`, embedded from `ValueChallenge` in
`src/aggregated_range_proof/messages.rs` lines 19-22. -/
structure ValueChallenge (F : Type) where
  y : F
  z : F

/-- Commitments `(T_1, T_2)`, embedded from `PolyCommitment` in
`src/aggregated_range_proof/messages.rs` lines 24-28. -/
structure PolyCommitment (Pt : Type) where
  T_1 : Pt
  T_2 : Pt

/-- Challenge `x`, embedded from `PolyChallenge` in
`src/aggregated_range_proof/messages.rs` lines 30-32. -/
structure PolyChallenge (F : Type) where
  x : F

/-- Final per-party output, embedded from `ProofShare` in
`src/aggregated_range_proof/messages.rs` lines 34-45. -/
structure ProofShare (F Pt : Type) where
  value_commitment : ValueCommitment Pt
  poly_commitment : PolyCommitment Pt
  t_x : F
  t_x_blinding : F
  e_blinding : F
  l_vec : List F
  r_vec : List F

/-- Initial party state, embedded from `PartyAwaitingPosition` in
`src/aggregated_range_proof/party.rs` lines 38-44. -/
structure PartyAwaitingPosition (F Pt : Type) where
  generators : Generators Pt
  n : Nat
  v : Nat
  v_blinding : F
  V : Pt

/-- Second party state, embedded from `PartyAwaitingValueChallenge` in
`src/aggregated_range_proof/party.rs` lines 102-114. -/
structure PartyAwaitingValueChallenge (F Pt : Type) where
  n : Nat
  v : Nat
  v_blinding : F
  j : Nat
  generators : Generators Pt
  value_commitment : ValueCommitment Pt
  a_blinding : F
  s_blinding : F
  s_L : List F
  s_R : List F

/-- Final party state, embedded from `PartyAwaitingPolyChallenge` in
`src/aggregated_range_proof/party.rs` lines 181-195. -/
structure PartyAwaitingPolyChallenge (F Pt : Type) where
  value_commitment : ValueCommitment Pt
  poly_commitment : PolyCommitment Pt
  z : F
  offset_z : F
  l_poly : VecPoly2 F
  r_poly : VecPoly2 F
  t_poly : Poly2 F
  v_blinding : F
  a_blinding : F
  s_blinding : F
  t_1_blinding : F
  t_2_blinding : F

/-- Loop of `PartyAwaitingValueChallenge::apply_challenge` in
`src/aggregated_range_proof/party.rs` lines 130-144, building the four
coefficient vectors of `l(X)` and `r(X)` while maintaining the running powers
`exp_y` (multiplied by `y` each step) and `exp_2` (doubled each step);
`i` is the current loop index and the second argument counts the remaining
iterations. -/
def partyLRAux (v : Nat) (y z zz offset_z : F) (s_L s_R : List F) :
    Nat → Nat → F → F → List F × List F × List F × List F
  | _, 0, _, _ => ([], [], [], [])
  | i, rem + 1, exp_y, exp_2 =>
      let a_L_i : F := (((v >>> i) &&& 1 : Nat) : F)
      let a_R_i : F := a_L_i - 1
      let rest := partyLRAux v y z zz offset_z s_L s_R (i + 1) rem (exp_y * y) (exp_2 + exp_2)
      ((a_L_i - z) :: rest.1,
       s_L.getD i 0 :: rest.2.1,
       (exp_y * (a_R_i + z) + zz * offset_z * exp_2) :: rest.2.2.1,
       (exp_y * s_R.getD i 0) :: rest.2.2.2)

/-- Embedded from `PartyAwaitingValueChallenge::apply_challenge` in
`src/aggregated_range_proof/party.rs` lines 117-178.  The RNG-drawn blindings
`t_1_blinding`, `t_2_blinding` are parameters; `offset_y = y^(j·n)` and
`offset_z = z^j` follow `util::scalar_exp_vartime` (modelled as `^`, `util.rs`
is not in src/). -/
def PartyAwaitingValueChallenge.applyChallenge (st : PartyAwaitingValueChallenge F Pt)
    (vc : ValueChallenge F) (t_1_blinding t_2_blinding : F) :
    PartyAwaitingPolyChallenge F Pt × PolyCommitment Pt :=
  let n := st.n
  let offset_y := vc.y ^ (st.j * n)
  let offset_z := vc.z ^ st.j
  let zz := vc.z * vc.z
  let lr := partyLRAux st.v vc.y vc.z zz offset_z st.s_L st.s_R 0 n offset_y 1
  let l_poly : VecPoly2 F := ⟨lr.1, lr.2.1⟩
  let r_poly : VecPoly2 F := ⟨lr.2.2.1, lr.2.2.2⟩
  let t_poly := l_poly.innerProduct r_poly
  let T_1 := (st.generators.share st.j).pedersen_gens.commit t_poly.t1 t_1_blinding
  let T_2 := (st.generators.share st.j).pedersen_gens.commit t_poly.t2 t_2_blinding
  let poly_commitment : PolyCommitment Pt := ⟨T_1, T_2⟩
  (⟨st.value_commitment, poly_commitment, vc.z, offset_z, l_poly, r_poly, t_poly,
    st.v_blinding, st.a_blinding, st.s_blinding, t_1_blinding, t_2_blinding⟩,
   poly_commitment)

/-- Embedded from `PartyAwaitingPolyChallenge::apply_challenge` in
`src/aggregated_range_proof/party.rs` lines 197-222: evaluates `t_poly` and
the blinding polynomial `(z²·offset_z·v_blinding, t_1_blinding, t_2_blinding)`
at `x`, and `l_poly`, `r_poly` at `x`.  This variant is infallible. -/
def PartyAwaitingPolyChallenge.applyChallenge (st : PartyAwaitingPolyChallenge F Pt)
    (pc : PolyChallenge F) : ProofShare F Pt :=
  let t_blinding_poly : Poly2 F :=
    ⟨st.z * st.z * st.offset_z * st.v_blinding, st.t_1_blinding, st.t_2_blinding⟩
  { value_commitment := st.value_commitment
    poly_commitment := st.poly_commitment
    t_x := st.t_poly.eval pc.x
    t_x_blinding := t_blinding_poly.eval pc.x
    e_blinding := st.a_blinding + st.s_blinding * pc.x
    l_vec := st.l_poly.eval pc.x
    r_vec := st.r_poly.eval pc.x }

/-- Modelled from the spec (§4.4, §7): the live `range_proof::party` variant of
`apply_challenge` (file `src/range_proof/party.rs`, not in src/; its caller
`prove_multiple` collects `Result`s and the test
`detect_dishonest_dealer_during_aggregation` asserts the failure) rejects the
challenge `x = 0` with `MaliciousDealer` and otherwise produces the same
`ProofShare` as the infallible variant. -/
def PartyAwaitingPolyChallenge.applyChallengeChecked [DecidableEq F]
    (st : PartyAwaitingPolyChallenge F Pt) (pc : PolyChallenge F) :
    Except MPCError (ProofShare F Pt) :=
  if pc.x = 0 then .error .MaliciousDealer
  else .ok (st.applyChallenge pc)

/-- Modelled from the spec (§4.4): `Party::new` of the live
`range_proof::party` variant (file `src/range_proof/party.rs`, not in src/)
"validates n∈{8,16,32,64} and generators.gens_capacity ≥ n"; on success the
state holds `V = commit(v, v_blinding)` computed through `share(0)` exactly as
in `src/aggregated_range_proof/party.rs` lines 22-25. -/
def Party.new (v : Nat) (v_blinding : F) (n : Nat) (gens : Generators Pt) :
    Except MPCError (PartyAwaitingPosition F Pt) :=
  if ¬(n = 8 ∨ n = 16 ∨ n = 32 ∨ n = 64) then .error .InvalidBitsize
  else if gens.gens_capacity < n then .error .InvalidGeneratorsLength
  else .ok ⟨gens, n, v, v_blinding, (gens.share 0).pedersen_gens.commit ((v : Nat) : F) v_blinding⟩

end Party

section Serialization

/-- Order of the Ristretto group (the scalar field modulus of
curve25519-dalek, an external collaborator): `2^252 + 27742...93`. -/
def ell : Nat := 2 ^ 252 + 27742317777372353535851937790883648493

instance : NeZero ell := ⟨by decide⟩

/-- Little-endian byte interpretation of a byte list. -/
def bytesLE : List Nat → Nat
  | [] => 0
  | d :: ds => d + 256 * bytesLE ds

/-- Little-endian encoding of `v` into exactly `k` bytes. -/
def natLE : Nat → Nat → List Nat
  | 0, _ => []
  | k + 1, v => v % 256 :: natLE k (v / 256)

/-- Canonical 32-byte little-endian serialization of a scalar
(`Scalar::as_bytes`, external). -/
def scalarToBytes (s : ZMod ell) : List Nat := natLE 32 s.val

/-- Canonical deserialization of a scalar (`Scalar::from_canonical_bytes`,
external): succeeds exactly when the little-endian value is below the group
order. -/
def scalarFromCanonicalBytes (b : List Nat) : Option (ZMod ell) :=
  if bytesLE b < ell then some ((bytesLE b : Nat) : ZMod ell) else none

/-- The 32-byte chunk at index `k` of a byte slice (`util::read32` applied at
offset `32·k`). -/
def chunk (k : Nat) (b : List Nat) : List Nat := (b.drop (32 * k)).take 32

/-- Modelled from the spec (§6, `inner_product_proof.rs` is not in src/):
`InnerProductProof::from_bytes` fails with `FormatError` unless the section
length is `32·(2k+2)` for some `k ≥ 0` and the two final scalars are
canonical; it reads the pairs `L_i, R_i` and then `a`, `b`. -/
def InnerProductProof.fromBytes (b : List Nat) :
    Except ProofError (InnerProductProof (ZMod ell) (List Nat)) :=
  if b.length % 32 ≠ 0 then .error .FormatError
  else
    let num := b.length / 32
    if num < 2 then .error .FormatError
    else if num % 2 ≠ 0 then .error .FormatError
    else
      let k := (num - 2) / 2
      let Ls := (List.range k).map (fun i => chunk (2 * i) b)
      let Rs := (List.range k).map (fun i => chunk (2 * i + 1) b)
      match scalarFromCanonicalBytes (chunk (2 * k) b),
            scalarFromCanonicalBytes (chunk (2 * k + 1) b) with
      | some a, some bb => .ok ⟨Ls, Rs, a, bb⟩
      | _, _ => .error .FormatError

/-- Embedded from `RangeProof::from_bytes` in `src/range_proof/mod.rs` lines
283-317: length must be a multiple of 32 and at least `7·32`; reads `A, S,
T_1, T_2` as raw 32-byte chunks, the three scalars canonically, then the
inner-product proof from the remainder. -/
def RangeProof.fromBytes (slice : List Nat) :
    Except ProofError (RangeProof (ZMod ell) (List Nat)) :=
  if slice.length % 32 ≠ 0 then .error .FormatError
  else if slice.length < 7 * 32 then .error .FormatError
  else
    match scalarFromCanonicalBytes (chunk 4 slice),
          scalarFromCanonicalBytes (chunk 5 slice),
          scalarFromCanonicalBytes (chunk 6 slice) with
    | some t_x, some t_x_blinding, some e_blinding =>
        match InnerProductProof.fromBytes (slice.drop (7 * 32)) with
        | .error e => .error e
        | .ok ipp =>
            .ok ⟨chunk 0 slice, chunk 1 slice, chunk 2 slice, chunk 3 slice,
                 t_x, t_x_blinding, e_blinding, ipp⟩
    | _, _, _ => .error .FormatError

/-- Modelled from the spec (§6, `inner_product_proof.rs` is not in src/):
`InnerProductProof::to_bytes` emits `L_i` then `R_i` for each round, then the
scalars `a` and `b`. -/
def InnerProductProof.toBytes (p : InnerProductProof (ZMod ell) (List Nat)) : List Nat :=
  ((p.L_vec.zip p.R_vec).map (fun lr => lr.1 ++ lr.2)).flatten ++
    scalarToBytes p.a ++ scalarToBytes p.b

/-- Embedded from `RangeProof::to_bytes` in `src/range_proof/mod.rs` lines
265-278: `A, S, T_1, T_2`, then `t_x, t_x_blinding, e_blinding`, then the
inner-product proof bytes. -/
def RangeProof.toBytes (p : RangeProof (ZMod ell) (List Nat)) : List Nat :=
  p.A ++ p.S ++ p.T_1 ++ p.T_2 ++ scalarToBytes p.t_x ++ scalarToBytes p.t_x_blinding ++
    scalarToBytes p.e_blinding ++ p.ipp_proof.toBytes

end Serialization

section ConcreteInstances

/-- The concrete witnesses below run the embedding over the prime field
`ZMod 13`. -/
instance : Fact (Nat.Prime 13) := ⟨by norm_num⟩

/-- Trivial deterministic transcript over `ZMod 13` scalars, used to evaluate
the embedding at concrete inputs; every challenge is the scalar 2. -/
def trivOps : TranscriptOps Unit Unit (ZMod 13) :=
  ⟨fun _ _ _ => (), fun _ _ _ => (), fun _ _ _ => (), fun _ _ => (2, ())⟩

/-- Concrete generator table over `ZMod 13` with one party and capacity 8. -/
def gensW : Generators (ZMod 13) :=
  ⟨8, 1, [[1, 2, 3, 4, 5, 6, 7, 8]], [[2, 3, 4, 5, 6, 7, 8, 9]], ⟨2, 7⟩⟩

/-- Concrete range proof shaped for `n = 8`, `m = 1` (three IPA rounds). -/
def proofW : RangeProof (ZMod 13) Unit :=
  ⟨(), (), (), (), 3, 4, 5, ⟨[(), (), ()], [(), (), ()], 6, 7⟩⟩

end ConcreteInstances

/-! Helper lemmas shared by the claim theorems. -/

theorem sum_map_range_sub {F : Type} [CommRing F] (f g : Nat → F) (n : Nat) :
    ((List.range n).map (fun i => f i - g i)).sum =
      ((List.range n).map f).sum - ((List.range n).map g).sum := by
  induction n with
  | zero => simp
  | succ n ih =>
      simp only [List.range_succ, List.map_append, List.sum_append, ih, List.map_cons,
        List.map_nil, List.sum_cons, List.sum_nil]
      ring

/-! Claim theorems. -/

/-- C2: for all scalars `y`, `z` and every `n`, `delta n 1 y z` equals the
explicit sum `Σ_{i<n} ((z−z²)·yⁱ − z³·2ⁱ)`, and for every `m`,
`delta n m y z` equals `(z−z²)` times the sum of the first `n·m` powers of
`y`, minus `z³` times the sum of the first `n` powers of 2 times the sum of
the first `m` powers of `z`. -/
theorem C2_delta_identities {F : Type} [CommRing F] (n m : Nat) (y z : F) :
    delta n 1 y z =
      ((List.range n).map (fun i => (z - z ^ 2) * y ^ i - z ^ 3 * 2 ^ i)).sum ∧
    delta n m y z =
      (z - z ^ 2) * ((List.range (n * m)).map (fun i => y ^ i)).sum -
        z ^ 3 * ((List.range n).map (fun i => (2 : F) ^ i)).sum *
          ((List.range m).map (fun j => z ^ j)).sum := by
  constructor
  · unfold delta sumOfPowers
    rw [Nat.mul_one, sum_map_range_sub (fun i => (z - z ^ 2) * y ^ i) (fun i => z ^ 3 * 2 ^ i)]
    rw [List.sum_map_mul_left, List.sum_map_mul_left]
    simp only [List.range_succ, List.range_zero, List.nil_append, List.map_cons,
      List.map_nil, List.sum_cons, List.sum_nil, pow_zero, add_zero]
    ring
  · unfold delta sumOfPowers
    ring

/-- C4: for every `PartyAwaitingPolyChallenge` state and challenge `x`, the
`ProofShare` returned by `apply_challenge` satisfies
`t_x = t₀ + x·t₁ + x²·t₂`,
`t_x_blinding = z²·offset_z·v_blinding + x·t_1_blinding + x²·t_2_blinding`,
`e_blinding = a_blinding + x·s_blinding`, and `l_vec`, `r_vec` are the
evaluations of `l(X)`, `r(X)` at `x`. -/
theorem C4_poly_challenge_share {F : Type} [Field F] {Pt : Type} [AddCommGroup Pt]
    [Module F Pt] (st : PartyAwaitingPolyChallenge F Pt) (x : F) :
    (st.applyChallenge ⟨x⟩).t_x = st.t_poly.t0 + x * st.t_poly.t1 + x ^ 2 * st.t_poly.t2 ∧
    (st.applyChallenge ⟨x⟩).t_x_blinding =
      st.z ^ 2 * st.offset_z * st.v_blinding + x * st.t_1_blinding + x ^ 2 * st.t_2_blinding ∧
    (st.applyChallenge ⟨x⟩).e_blinding = st.a_blinding + x * st.s_blinding ∧
    (st.applyChallenge ⟨x⟩).l_vec = st.l_poly.eval x ∧
    (st.applyChallenge ⟨x⟩).r_vec = st.r_poly.eval x := by
  refine ⟨?_, ?_, ?_, rfl, rfl⟩ <;>
    simp only [PartyAwaitingPolyChallenge.applyChallenge, Poly2.eval] <;> ring

/-- C5: applying the final poly challenge with `x = 0` fails with
`MaliciousDealer` (`BadChallenge`), and for every `x ≠ 0` it succeeds and
returns the `ProofShare`. -/
theorem C5_zero_challenge_rejected {F : Type} [Field F] [DecidableEq F] {Pt : Type}
    [AddCommGroup Pt] [Module F Pt] (st : PartyAwaitingPolyChallenge F Pt)
    (pc : PolyChallenge F) :
    (st.applyChallengeChecked pc = .error .MaliciousDealer ↔ pc.x = 0) ∧
    (pc.x ≠ 0 → st.applyChallengeChecked pc = .ok (st.applyChallenge pc)) := by
  unfold PartyAwaitingPolyChallenge.applyChallengeChecked
  by_cases h : pc.x = 0 <;> simp [h]

/-- Witness for C5 at a concrete state over `ZMod 13`: the challenge 0 is
rejected with `MaliciousDealer` and the challenge 1 is accepted. -/
theorem C5_zero_challenge_rejected_witness :
    ((⟨⟨1, 2, 3⟩, ⟨4, 5⟩, 6, 7, ⟨[1], [2]⟩, ⟨[3], [4]⟩, ⟨1, 2, 3⟩, 1, 2, 3, 4, 5⟩ :
        PartyAwaitingPolyChallenge (ZMod 13) (ZMod 13)).applyChallengeChecked ⟨0⟩ =
      .error .MaliciousDealer) ∧
    ((⟨⟨1, 2, 3⟩, ⟨4, 5⟩, 6, 7, ⟨[1], [2]⟩, ⟨[3], [4]⟩, ⟨1, 2, 3⟩, 1, 2, 3, 4, 5⟩ :
        PartyAwaitingPolyChallenge (ZMod 13) (ZMod 13)).applyChallengeChecked ⟨1⟩ =
      .ok ((⟨⟨1, 2, 3⟩, ⟨4, 5⟩, 6, 7, ⟨[1], [2]⟩, ⟨[3], [4]⟩, ⟨1, 2, 3⟩, 1, 2, 3, 4, 5⟩ :
        PartyAwaitingPolyChallenge (ZMod 13) (ZMod 13)).applyChallenge ⟨1⟩)) := by
  constructor
  · exact (C5_zero_challenge_rejected _ _).1.mpr rfl
  · exact (C5_zero_challenge_rejected _ _).2 (by decide)

/-- C6: `Party::new` fails exactly when `n ∉ {8,16,32,64}` or the generators'
per-party capacity is below `n`; on success the initial state holds
`V = v·B + v_blinding·B_blinding`. -/
theorem C6_party_new_validation {F : Type} [Field F] [DecidableEq F] {Pt : Type}
    [AddCommGroup Pt] [Module F Pt] (v : Nat) (v_blinding : F) (n : Nat)
    (gens : Generators Pt) :
    ((∃ e, Party.new v v_blinding n gens = .error e) ↔
      ¬((n = 8 ∨ n = 16 ∨ n = 32 ∨ n = 64) ∧ n ≤ gens.gens_capacity)) ∧
    (∀ st : PartyAwaitingPosition F Pt, Party.new v v_blinding n gens = .ok st →
      st.V = (v : F) • gens.pedersen_gens.B + v_blinding • gens.pedersen_gens.B_blinding) := by
  by_cases hn : n = 8 ∨ n = 16 ∨ n = 32 ∨ n = 64
  · by_cases hc : gens.gens_capacity < n
    · have hnew : Party.new v v_blinding n gens =
          (.error .InvalidGeneratorsLength : Except MPCError (PartyAwaitingPosition F Pt)) := by
        unfold Party.new
        rw [if_neg (not_not_intro hn), if_pos hc]
      rw [hnew]
      refine ⟨Iff.intro (fun _ h => Nat.not_le.mpr hc h.2) (fun _ => ⟨_, rfl⟩), ?_⟩
      intro st h
      simp at h
    · have hnew : Party.new v v_blinding n gens =
          .ok ⟨gens, n, v, v_blinding,
            (gens.share 0).pedersen_gens.commit ((v : Nat) : F) v_blinding⟩ := by
        unfold Party.new
        rw [if_neg (not_not_intro hn), if_neg hc]
      rw [hnew]
      constructor
      · constructor
        · rintro ⟨e, h⟩
          simp at h
        · intro h
          exact absurd ⟨hn, Nat.not_lt.mp hc⟩ h
      · intro st h
        injection h with h2
        rw [← h2]
        rfl
  · have hnew : Party.new v v_blinding n gens =
        (.error .InvalidBitsize : Except MPCError (PartyAwaitingPosition F Pt)) := by
      unfold Party.new
      rw [if_pos hn]
    rw [hnew]
    refine ⟨Iff.intro (fun _ h => hn h.1) (fun _ => ⟨_, rfl⟩), ?_⟩
    intro st h
    simp at h

/-- Witness for C6 over `ZMod 13`: with `n = 8` and capacity 8 the party is
created and `V` is the Pedersen commitment; with `n = 7` it fails. -/
theorem C6_party_new_validation_witness :
    (¬(∃ e, Party.new (3 : Nat) (5 : ZMod 13) 8 (⟨8, 1, [], [], ⟨2, 7⟩⟩ : Generators (ZMod 13)) =
        .error e)) ∧
    (∀ st : PartyAwaitingPosition (ZMod 13) (ZMod 13),
      Party.new (3 : Nat) (5 : ZMod 13) 8 (⟨8, 1, [], [], ⟨2, 7⟩⟩ : Generators (ZMod 13)) =
          .ok st →
        st.V = ((3 : Nat) : ZMod 13) • (2 : ZMod 13) + (5 : ZMod 13) • (7 : ZMod 13)) := by
  constructor
  · intro h
    exact ((C6_party_new_validation (3 : Nat) (5 : ZMod 13) 8
      (⟨8, 1, [], [], ⟨2, 7⟩⟩ : Generators (ZMod 13))).1.mp h) (by decide)
  · exact (C6_party_new_validation (3 : Nat) (5 : ZMod 13) 8
      (⟨8, 1, [], [], ⟨2, 7⟩⟩ : Generators (ZMod 13))).2

/-- Counterexample for C7: with `n = 7` (invalid bitsize) and generator
capacity 0 (so `gens_capacity < n` also holds), `verify` returns
`InvalidBitsize`, not `InvalidGeneratorsLength` as the claim's second
"whenever" clause demands. -/
theorem C7_counterexample :
    RangeProof.verify trivOps (fun _ => ()) (fun _ => none)
        (⟨0, 0, [], [], ⟨1, 2⟩⟩ : Generators (ZMod 13))
        (⟨(), (), (), (), 0, 0, 0, ⟨[], [], 0, 0⟩⟩ : RangeProof (ZMod 13) Unit)
        ([] : List (ZMod 13)) () 0 7 = .error .InvalidBitsize ∧
    (⟨0, 0, [], [], ⟨1, 2⟩⟩ : Generators (ZMod 13)).gens_capacity < 7 ∧
    ProofError.InvalidBitsize ≠ ProofError.InvalidGeneratorsLength := by
  refine ⟨rfl, by decide, by decide⟩

/-- C7 (amended): `RangeProof::verify` returns `InvalidBitsize` whenever
`n ∉ {8,16,32,64}`; when `n ∈ {8,16,32,64}` it returns
`InvalidGeneratorsLength` whenever `gens_capacity < n` or
`party_capacity < m` (the bitsize check takes precedence); these checks are
independent of the transcript (which is universally quantified); and
`prove_multiple` returns `WrongNumBlindingFactors` whenever
`len(values) ≠ len(blindings)`. -/
theorem C7_validation_errors {F TT CP : Type} [Field F] [DecidableEq F] {Pt : Type}
    [AddCommGroup Pt] [Module F Pt] [DecidableEq Pt]
    (ops : TranscriptOps TT CP F) (compress : Pt → CP) (decompress : CP → Option Pt)
    (gens : Generators Pt) (proof : RangeProof F CP) (vcs : List Pt) (t : TT) (c : F)
    (n : Nat) (values : List Nat) (blindings : List F)
    (rest : Except ProofError (RangeProof F CP)) :
    (¬(n = 8 ∨ n = 16 ∨ n = 32 ∨ n = 64) →
      proof.verify ops compress decompress gens vcs t c n = .error .InvalidBitsize) ∧
    ((n = 8 ∨ n = 16 ∨ n = 32 ∨ n = 64) →
      gens.gens_capacity < n ∨ gens.party_capacity < vcs.length →
      proof.verify ops compress decompress gens vcs t c n =
        .error .InvalidGeneratorsLength) ∧
    (values.length ≠ blindings.length →
      proveMultiple values blindings n gens rest = .error .WrongNumBlindingFactors) := by
  refine ⟨?_, ?_, ?_⟩
  · intro hn
    simp only [RangeProof.verify]
    rw [if_pos hn]
  · intro hn hcap
    simp only [RangeProof.verify]
    rw [if_neg (not_not_intro hn)]
    by_cases hg : gens.gens_capacity < n
    · rw [if_pos hg]
    · rw [if_neg hg, if_pos (hcap.resolve_left hg)]
  · intro hlen
    unfold proveMultiple
    rw [if_pos hlen]

/-- Witness for C7 at concrete inputs over `ZMod 13`: with `n = 8` and a
zero-capacity generator table verify reports `InvalidGeneratorsLength`, and a
values/blindings length mismatch makes `prove_multiple` report
`WrongNumBlindingFactors`. -/
theorem C7_validation_errors_witness :
    RangeProof.verify trivOps (fun _ => ()) (fun _ => none)
        (⟨0, 0, [], [], ⟨1, 2⟩⟩ : Generators (ZMod 13))
        (⟨(), (), (), (), 0, 0, 0, ⟨[], [], 0, 0⟩⟩ : RangeProof (ZMod 13) Unit)
        ([] : List (ZMod 13)) () 0 8 = .error .InvalidGeneratorsLength ∧
    proveMultiple [0] ([] : List (ZMod 13)) 8 (⟨0, 0, [], [], ⟨1, 2⟩⟩ : Generators (ZMod 13))
        (.error .FormatError : Except ProofError (RangeProof (ZMod 13) Unit)) =
      .error .WrongNumBlindingFactors := by
  constructor
  · exact (C7_validation_errors trivOps (fun _ => ()) (fun _ => none)
      (⟨0, 0, [], [], ⟨1, 2⟩⟩ : Generators (ZMod 13))
      (⟨(), (), (), (), 0, 0, 0, ⟨[], [], 0, 0⟩⟩ : RangeProof (ZMod 13) Unit)
      ([] : List (ZMod 13)) () 0 8 [0] ([] : List (ZMod 13))
      (.error .FormatError)).2.1 (Or.inl rfl) (Or.inl (by decide))
  · exact (C7_validation_errors trivOps (fun _ => ()) (fun _ => none)
      (⟨0, 0, [], [], ⟨1, 2⟩⟩ : Generators (ZMod 13))
      (⟨(), (), (), (), 0, 0, 0, ⟨[], [], 0, 0⟩⟩ : RangeProof (ZMod 13) Unit)
      ([] : List (ZMod 13)) () 0 8 [0] ([] : List (ZMod 13))
      (.error .FormatError)).2.2 (by decide)

/-! Lemmas about the party loop and the Karatsuba inner product. -/

theorem partyLRAux_lengths {F : Type} [Field F] (v : Nat) (y z zz offset_z : F)
    (s_L s_R : List F) (rem : Nat) :
    ∀ (i : Nat) (exp_y exp_2 : F),
      (partyLRAux v y z zz offset_z s_L s_R i rem exp_y exp_2).1.length = rem ∧
      (partyLRAux v y z zz offset_z s_L s_R i rem exp_y exp_2).2.1.length = rem ∧
      (partyLRAux v y z zz offset_z s_L s_R i rem exp_y exp_2).2.2.1.length = rem ∧
      (partyLRAux v y z zz offset_z s_L s_R i rem exp_y exp_2).2.2.2.length = rem := by
  induction rem with
  | zero => intro i ey e2; simp [partyLRAux]
  | succ rem ih =>
      intro i ey e2
      have h := ih (i + 1) (ey * y) (e2 + e2)
      simp [partyLRAux, h.1, h.2.1, h.2.2.1, h.2.2.2]

theorem partyLRAux_getD {F : Type} [Field F] (v : Nat) (y z zz offset_z : F)
    (s_L s_R : List F) (rem : Nat) :
    ∀ (i idx : Nat) (exp_y exp_2 : F), idx < rem →
      (partyLRAux v y z zz offset_z s_L s_R i rem exp_y exp_2).1.getD idx 0 =
        (((v >>> (i + idx)) &&& 1 : Nat) : F) - z ∧
      (partyLRAux v y z zz offset_z s_L s_R i rem exp_y exp_2).2.1.getD idx 0 =
        s_L.getD (i + idx) 0 ∧
      (partyLRAux v y z zz offset_z s_L s_R i rem exp_y exp_2).2.2.1.getD idx 0 =
        exp_y * y ^ idx * ((((v >>> (i + idx)) &&& 1 : Nat) : F) - 1 + z) +
          zz * offset_z * (exp_2 * 2 ^ idx) ∧
      (partyLRAux v y z zz offset_z s_L s_R i rem exp_y exp_2).2.2.2.getD idx 0 =
        exp_y * y ^ idx * s_R.getD (i + idx) 0 := by
  induction rem with
  | zero => intro i idx ey e2 h; exact absurd h (Nat.not_lt_zero idx)
  | succ rem ih =>
      intro i idx ey e2 h
      cases idx with
      | zero =>
          simp only [partyLRAux, List.getD_cons_zero, Nat.add_zero, pow_zero]
          refine ⟨trivial, trivial, by ring, by ring⟩
      | succ idx =>
          have h' : idx < rem := Nat.lt_of_succ_lt_succ h
          have hs := ih (i + 1) idx (ey * y) (e2 + e2) h'
          have hidx : i + 1 + idx = i + (idx + 1) := by omega
          simp only [partyLRAux, List.getD_cons_succ]
          refine ⟨?_, ?_, ?_, ?_⟩
          · rw [hs.1, hidx]
          · rw [hs.2.1, hidx]
          · rw [hs.2.2.1, hidx, pow_succ, pow_succ]; ring
          · rw [hs.2.2.2, hidx, pow_succ]; ring

theorem innerProduct_addVec_left {F : Type} [CommRing F] (a b c : List F)
    (h : a.length = b.length) :
    innerProduct (addVec a b) c = innerProduct a c + innerProduct b c := by
  induction a generalizing b c with
  | nil =>
      have : b = [] := List.eq_nil_of_length_eq_zero (by simpa using h.symm)
      simp [this, innerProduct, addVec]
  | cons x xs ih =>
      cases b with
      | nil => simp at h
      | cons w ws =>
          cases c with
          | nil => simp [innerProduct, addVec]
          | cons u us =>
              have h' : xs.length = ws.length := by simpa using h
              simp only [innerProduct, addVec, List.zipWith_cons_cons, List.sum_cons]
              have := ih ws us h'
              simp only [innerProduct, addVec] at this
              rw [this]
              ring

theorem innerProduct_addVec_right {F : Type} [CommRing F] (a b c : List F)
    (h : b.length = c.length) :
    innerProduct a (addVec b c) = innerProduct a b + innerProduct a c := by
  induction a generalizing b c with
  | nil => simp [innerProduct, addVec]
  | cons x xs ih =>
      cases b with
      | nil =>
          have : c = [] := List.eq_nil_of_length_eq_zero (by simpa using h.symm)
          simp [this, innerProduct, addVec]
      | cons w ws =>
          cases c with
          | nil => simp at h
          | cons u us =>
              have h' : ws.length = us.length := by simpa using h
              simp only [innerProduct, addVec, List.zipWith_cons_cons, List.sum_cons]
              have := ih ws us h'
              simp only [innerProduct, addVec] at this
              rw [this]
              ring

theorem vecPoly2_innerProduct_t1 {F : Type} [CommRing F] (l r : VecPoly2 F)
    (h0 : l.c0.length = l.c1.length) (h1 : r.c0.length = r.c1.length) :
    (l.innerProduct r).t1 = innerProduct l.c0 r.c1 + innerProduct l.c1 r.c0 := by
  show innerProduct (addVec l.c0 l.c1) (addVec r.c0 r.c1) -
      innerProduct l.c0 r.c0 - innerProduct l.c1 r.c1 =
    innerProduct l.c0 r.c1 + innerProduct l.c1 r.c0
  rw [innerProduct_addVec_left _ _ _ h0, innerProduct_addVec_right _ _ _ h1,
    innerProduct_addVec_right _ _ _ h1]
  ring

/-- C3: `PartyAwaitingValueChallenge::apply_challenge` builds the degree-1
vector polynomials with `l(X)[i] = (a_L[i] − z) + s_L[i]·X` and
`r(X)[i] = y^(j·n)·yⁱ·(a_R[i] + z) + z²·z^j·2ⁱ + y^(j·n)·yⁱ·s_R[i]·X`
where `a_L[i]` is the i-th bit of `v` and `a_R[i] = a_L[i] − 1`, and the
coefficients `t₀, t₁, t₂` it commits to (with `t₁` computed by Karatsuba)
equal the true coefficients of `t(X) = ⟨l(X), r(X)⟩`. -/
theorem C3_value_challenge_polys {F : Type} [Field F] {Pt : Type} [AddCommGroup Pt]
    [Module F Pt] (st : PartyAwaitingValueChallenge F Pt) (vc : ValueChallenge F)
    (t_1_blinding t_2_blinding : F) (i : Nat) (hi : i < st.n) :
    (st.applyChallenge vc t_1_blinding t_2_blinding).1.l_poly.c0.getD i 0 =
      (((st.v >>> i) &&& 1 : Nat) : F) - vc.z ∧
    (st.applyChallenge vc t_1_blinding t_2_blinding).1.l_poly.c1.getD i 0 =
      st.s_L.getD i 0 ∧
    (st.applyChallenge vc t_1_blinding t_2_blinding).1.r_poly.c0.getD i 0 =
      vc.y ^ (st.j * st.n) * vc.y ^ i *
          ((((st.v >>> i) &&& 1 : Nat) : F) - 1 + vc.z) +
        vc.z ^ 2 * vc.z ^ st.j * 2 ^ i ∧
    (st.applyChallenge vc t_1_blinding t_2_blinding).1.r_poly.c1.getD i 0 =
      vc.y ^ (st.j * st.n) * vc.y ^ i * st.s_R.getD i 0 ∧
    (st.applyChallenge vc t_1_blinding t_2_blinding).1.t_poly.t0 =
      innerProduct (st.applyChallenge vc t_1_blinding t_2_blinding).1.l_poly.c0
        (st.applyChallenge vc t_1_blinding t_2_blinding).1.r_poly.c0 ∧
    (st.applyChallenge vc t_1_blinding t_2_blinding).1.t_poly.t1 =
      innerProduct (st.applyChallenge vc t_1_blinding t_2_blinding).1.l_poly.c0
          (st.applyChallenge vc t_1_blinding t_2_blinding).1.r_poly.c1 +
        innerProduct (st.applyChallenge vc t_1_blinding t_2_blinding).1.l_poly.c1
          (st.applyChallenge vc t_1_blinding t_2_blinding).1.r_poly.c0 ∧
    (st.applyChallenge vc t_1_blinding t_2_blinding).1.t_poly.t2 =
      innerProduct (st.applyChallenge vc t_1_blinding t_2_blinding).1.l_poly.c1
        (st.applyChallenge vc t_1_blinding t_2_blinding).1.r_poly.c1 := by
  have hlr := partyLRAux_getD st.v vc.y vc.z (vc.z * vc.z) (vc.z ^ st.j) st.s_L st.s_R
    st.n 0 i (vc.y ^ (st.j * st.n)) 1 hi
  have hlen := partyLRAux_lengths st.v vc.y vc.z (vc.z * vc.z) (vc.z ^ st.j) st.s_L st.s_R
    st.n 0 (vc.y ^ (st.j * st.n)) 1
  simp only [PartyAwaitingValueChallenge.applyChallenge]
  refine ⟨?_, ?_, ?_, ?_, rfl, ?_, rfl⟩
  · simpa using hlr.1
  · simpa using hlr.2.1
  · rw [show (0 : Nat) + i = i from Nat.zero_add i] at hlr
    rw [hlr.2.2.1]
    ring
  · rw [show (0 : Nat) + i = i from Nat.zero_add i] at hlr
    rw [hlr.2.2.2]
  · exact vecPoly2_innerProduct_t1 _ _ (by rw [hlen.1, hlen.2.1]) (by rw [hlen.2.2.1, hlen.2.2.2])

/-- Witness for C3 at a concrete state over `ZMod 13` (`n = 2`, `v = 2`,
`j = 1`, index `i = 1`). -/
theorem C3_value_challenge_polys_witness :
    ((⟨2, 2, 3, 1, ⟨2, 1, [[1, 2]], [[3, 4]], ⟨2, 7⟩⟩, ⟨1, 2, 3⟩, 4, 5, [1, 2], [3, 4]⟩ :
        PartyAwaitingValueChallenge (ZMod 13) (ZMod 13)).applyChallenge
          ⟨2, 3⟩ 6 7).1.l_poly.c0.getD 1 0 =
      (((2 >>> 1) &&& 1 : Nat) : ZMod 13) - 3 ∧
    ((⟨2, 2, 3, 1, ⟨2, 1, [[1, 2]], [[3, 4]], ⟨2, 7⟩⟩, ⟨1, 2, 3⟩, 4, 5, [1, 2], [3, 4]⟩ :
        PartyAwaitingValueChallenge (ZMod 13) (ZMod 13)).applyChallenge
          ⟨2, 3⟩ 6 7).1.t_poly.t1 =
      innerProduct
          ((⟨2, 2, 3, 1, ⟨2, 1, [[1, 2]], [[3, 4]], ⟨2, 7⟩⟩, ⟨1, 2, 3⟩, 4, 5, [1, 2], [3, 4]⟩ :
            PartyAwaitingValueChallenge (ZMod 13) (ZMod 13)).applyChallenge
              ⟨2, 3⟩ 6 7).1.l_poly.c0
          ((⟨2, 2, 3, 1, ⟨2, 1, [[1, 2]], [[3, 4]], ⟨2, 7⟩⟩, ⟨1, 2, 3⟩, 4, 5, [1, 2], [3, 4]⟩ :
            PartyAwaitingValueChallenge (ZMod 13) (ZMod 13)).applyChallenge
              ⟨2, 3⟩ 6 7).1.r_poly.c1 +
        innerProduct
          ((⟨2, 2, 3, 1, ⟨2, 1, [[1, 2]], [[3, 4]], ⟨2, 7⟩⟩, ⟨1, 2, 3⟩, 4, 5, [1, 2], [3, 4]⟩ :
            PartyAwaitingValueChallenge (ZMod 13) (ZMod 13)).applyChallenge
              ⟨2, 3⟩ 6 7).1.l_poly.c1
          ((⟨2, 2, 3, 1, ⟨2, 1, [[1, 2]], [[3, 4]], ⟨2, 7⟩⟩, ⟨1, 2, 3⟩, 4, 5, [1, 2], [3, 4]⟩ :
            PartyAwaitingValueChallenge (ZMod 13) (ZMod 13)).applyChallenge
              ⟨2, 3⟩ 6 7).1.r_poly.c0 := by
  have h := C3_value_challenge_polys
    (⟨2, 2, 3, 1, ⟨2, 1, [[1, 2]], [[3, 4]], ⟨2, 7⟩⟩, ⟨1, 2, 3⟩, 4, 5, [1, 2], [3, 4]⟩ :
      PartyAwaitingValueChallenge (ZMod 13) (ZMod 13)) ⟨2, 3⟩ 6 7 1 (by decide)
  exact ⟨h.1, h.2.2.2.2.2.1⟩

/-! Lemmas about the optional multi-scalar multiplication. -/

theorem collectSome_eq_none_of_mem {Pt : Type} (l : List (Option Pt)) (h : none ∈ l) :
    collectSome l = none := by
  induction l with
  | nil => cases h
  | cons x xs ih =>
      cases x with
      | none => rfl
      | some P =>
          rcases List.mem_cons.mp h with h1 | h2
          · simp at h1
          · simp [collectSome, ih h2]

theorem optionalMSM_eq_none {F Pt : Type} [Field F] [AddCommGroup Pt] [Module F Pt]
    (scalars : List F) (points : List (Option Pt)) (h : none ∈ points) :
    optionalMSM scalars points = none := by
  simp [optionalMSM, collectSome_eq_none_of_mem points h]

theorem none_mem_verifyPoints {F CP : Type} [Field F] {Pt : Type} [AddCommGroup Pt]
    [Module F Pt] (decompress : CP → Option Pt) (gens : Generators Pt)
    (proof : RangeProof F CP) (vcs : List Pt) (n m : Nat)
    (hbad : decompress proof.A = none ∨ decompress proof.S = none ∨
      decompress proof.T_1 = none ∨ decompress proof.T_2 = none ∨
      (∃ L ∈ proof.ipp_proof.L_vec, decompress L = none) ∨
      (∃ R ∈ proof.ipp_proof.R_vec, decompress R = none)) :
    (none : Option Pt) ∈ verifyPoints decompress gens proof vcs n m := by
  unfold verifyPoints
  simp only [List.mem_cons, List.mem_append, List.mem_map]
  rcases hbad with h | h | h | h | ⟨L, hL, h⟩ | ⟨R, hR, h⟩
  · exact Or.inl h.symm
  · exact Or.inr (Or.inl h.symm)
  · exact Or.inr (Or.inr (Or.inl h.symm))
  · exact Or.inr (Or.inr (Or.inr (Or.inl h.symm)))
  · exact Or.inr (Or.inr (Or.inr (Or.inr
      (Or.inl (Or.inl (Or.inl (Or.inl (Or.inl ⟨L, hL, h⟩))))))))
  · exact Or.inr (Or.inr (Or.inr (Or.inr
      (Or.inl (Or.inl (Or.inl (Or.inl (Or.inr ⟨R, hR, h⟩))))))))

/-- C10: for every `RangeProof` in which any stored compressed point (`A`,
`S`, `T₁`, `T₂`, or any `L_i`, `R_i` of the inner-product proof) fails to
decompress, `RangeProof::verify` (with valid bitsize and generator
capacities) returns `VerificationError`, the same error as a failed identity
check; `verify` is total over arbitrary point encodings. -/
theorem C10_bad_point_encoding {F TT CP : Type} [Field F] [DecidableEq F] {Pt : Type}
    [AddCommGroup Pt] [Module F Pt] [DecidableEq Pt]
    (ops : TranscriptOps TT CP F) (compress : Pt → CP) (decompress : CP → Option Pt)
    (gens : Generators Pt) (proof : RangeProof F CP) (vcs : List Pt) (t : TT) (c : F)
    (n : Nat) (hn : n = 8 ∨ n = 16 ∨ n = 32 ∨ n = 64)
    (hg : ¬gens.gens_capacity < n) (hp : ¬gens.party_capacity < vcs.length)
    (hbad : decompress proof.A = none ∨ decompress proof.S = none ∨
      decompress proof.T_1 = none ∨ decompress proof.T_2 = none ∨
      (∃ L ∈ proof.ipp_proof.L_vec, decompress L = none) ∨
      (∃ R ∈ proof.ipp_proof.R_vec, decompress R = none)) :
    proof.verify ops compress decompress gens vcs t c n = .error .VerificationError := by
  simp only [RangeProof.verify]
  rw [if_neg (not_not_intro hn), if_neg hg, if_neg hp]
  rw [optionalMSM_eq_none _ _
    (none_mem_verifyPoints decompress gens proof vcs n vcs.length hbad)]

/-- Witness for C10 over `ZMod 13` with a decompression map that always
fails: verify at `n = 8` reports `VerificationError`. -/
theorem C10_bad_point_encoding_witness :
    RangeProof.verify trivOps (fun _ => ()) (fun _ => (none : Option (ZMod 13)))
        (⟨8, 0, [], [], ⟨1, 2⟩⟩ : Generators (ZMod 13))
        (⟨(), (), (), (), 0, 0, 0, ⟨[], [], 0, 0⟩⟩ : RangeProof (ZMod 13) Unit)
        ([] : List (ZMod 13)) () 0 8 = .error .VerificationError := by
  exact C10_bad_point_encoding trivOps (fun _ => ()) (fun _ => none)
    (⟨8, 0, [], [], ⟨1, 2⟩⟩ : Generators (ZMod 13))
    (⟨(), (), (), (), 0, 0, 0, ⟨[], [], 0, 0⟩⟩ : RangeProof (ZMod 13) Unit)
    ([] : List (ZMod 13)) () 0 8 (Or.inl rfl) (by decide) (by decide) (Or.inl rfl)

/-! Lemmas about byte-level serialization. -/

theorem natLE_length (k v : Nat) : (natLE k v).length = k := by
  induction k generalizing v with
  | zero => rfl
  | succ k ih => simp [natLE, ih]

theorem bytesLE_natLE (k v : Nat) (h : v < 256 ^ k) : bytesLE (natLE k v) = v := by
  induction k generalizing v with
  | zero =>
      simp [natLE, bytesLE]
      omega
  | succ k ih =>
      have hdiv : v / 256 < 256 ^ k := by
        rw [Nat.div_lt_iff_lt_mul (by norm_num)]
        calc v < 256 ^ (k + 1) := h
        _ = 256 ^ k * 256 := by rw [pow_succ]
      simp only [natLE, bytesLE, ih (v / 256) hdiv]
      omega

theorem scalarToBytes_length (s : ZMod ell) : (scalarToBytes s).length = 32 :=
  natLE_length 32 s.val

theorem scalar_roundtrip (s : ZMod ell) :
    scalarFromCanonicalBytes (scalarToBytes s) = some s := by
  have hval : s.val < ell := ZMod.val_lt s
  have hbig : ell < 256 ^ 32 := by decide
  have hv : bytesLE (natLE 32 s.val) = s.val := bytesLE_natLE 32 s.val (by omega)
  unfold scalarFromCanonicalBytes scalarToBytes
  rw [hv, if_pos hval, ZMod.natCast_zmod_val]

theorem flatten32_length (bs : List (List Nat)) (h : ∀ b ∈ bs, b.length = 32) :
    bs.flatten.length = 32 * bs.length := by
  induction bs with
  | nil => rfl
  | cons b rest ih =>
      have hb : b.length = 32 := h b (List.mem_cons_self b rest)
      have hr := ih (fun x hx => h x (List.mem_cons_of_mem b hx))
      simp [List.flatten_cons, hb, hr]
      ring

theorem flatten32_drop (bs : List (List Nat)) (h : ∀ b ∈ bs, b.length = 32) (k : Nat) :
    bs.flatten.drop (32 * k) = (bs.drop k).flatten := by
  induction k generalizing bs with
  | zero => simp
  | succ k ih =>
      cases bs with
      | nil => simp
      | cons b rest =>
          have hb : b.length = 32 := h b (List.mem_cons_self b rest)
          have hr := ih rest (fun x hx => h x (List.mem_cons_of_mem b hx))
          have hsplit : 32 * (k + 1) = 32 + 32 * k := by ring
          rw [List.flatten_cons, hsplit, ← List.drop_drop, List.drop_left' hb, hr]
          simp

theorem chunk_flatten32 (bs : List (List Nat)) (h : ∀ b ∈ bs, b.length = 32) (k : Nat)
    (hk : k < bs.length) : chunk k bs.flatten = bs.getD k [] := by
  unfold chunk
  rw [flatten32_drop bs h k]
  have hdk : bs.drop k = bs.getD k [] :: bs.drop (k + 1) := by
    rw [List.drop_eq_getElem_cons hk]
    congr 1
    exact (List.getD_eq_getElem bs [] hk).symm
  rw [hdk, List.flatten_cons]
  refine List.take_left' (h _ ?_)
  rw [List.getD_eq_getElem bs [] hk]
  exact List.getElem_mem hk

theorem map_getD_range {A : Type} (l : List A) (d : A) :
    (List.range l.length).map (fun i => l.getD i d) = l := by
  induction l with
  | nil => rfl
  | cons x xs ih =>
      rw [List.length_cons, List.range_succ_eq_map, List.map_cons, List.map_map]
      have hc : ((fun i => (x :: xs).getD i d) ∘ Nat.succ) = (fun i => xs.getD i d) := by
        funext i
        simp
      rw [List.getD_cons_zero, hc, ih]

theorem pairFlatMap_length {A : Type} (l : List (A × A)) :
    (l.flatMap (fun lr => [lr.1, lr.2])).length = 2 * l.length := by
  induction l with
  | nil => rfl
  | cons x xs ih => simp [ih]; ring

theorem pairFlatMap_getD_even {A : Type} (l : List (A × A)) (d : A) (i : Nat)
    (hi : i < l.length) :
    (l.flatMap (fun lr => [lr.1, lr.2])).getD (2 * i) d = (l.getD i (d, d)).1 := by
  induction l generalizing i with
  | nil => simp at hi
  | cons x xs ih =>
      cases i with
      | zero => simp
      | succ i =>
          have hi' : i < xs.length := by simpa using hi
          have h2 : 2 * (i + 1) = (2 * i) + 1 + 1 := by ring
          simp only [List.flatMap_cons, List.cons_append, List.nil_append, h2,
            List.getD_cons_succ, List.getD_cons_succ]
          exact ih i hi'

theorem pairFlatMap_getD_odd {A : Type} (l : List (A × A)) (d : A) (i : Nat)
    (hi : i < l.length) :
    (l.flatMap (fun lr => [lr.1, lr.2])).getD (2 * i + 1) d = (l.getD i (d, d)).2 := by
  induction l generalizing i with
  | nil => simp at hi
  | cons x xs ih =>
      cases i with
      | zero => simp
      | succ i =>
          have hi' : i < xs.length := by simpa using hi
          have h2 : 2 * (i + 1) + 1 = (2 * i + 1) + 1 + 1 := by ring
          simp only [List.flatMap_cons, List.cons_append, List.nil_append, h2,
            List.getD_cons_succ, List.getD_cons_succ]
          exact ih i hi'

theorem flatten_map_pair {A : Type} (l : List (List A × List A)) :
    (l.map (fun lr => lr.1 ++ lr.2)).flatten = (l.flatMap (fun lr => [lr.1, lr.2])).flatten := by
  induction l with
  | nil => rfl
  | cons x xs ih => simp [ih]

theorem zip_getD_fst {A B : Type} (l1 : List A) (l2 : List B) (d : A) (e : B) (i : Nat)
    (hi : i < (l1.zip l2).length) : ((l1.zip l2).getD i (d, e)).1 = l1.getD i d := by
  have h1 : i < l1.length := by
    rw [List.length_zip] at hi
    exact lt_of_lt_of_le hi (Nat.min_le_left _ _)
  rw [List.getD_eq_getElem _ _ hi, List.getElem_zip, List.getD_eq_getElem _ _ h1]

theorem zip_getD_snd {A B : Type} (l1 : List A) (l2 : List B) (d : A) (e : B) (i : Nat)
    (hi : i < (l1.zip l2).length) : ((l1.zip l2).getD i (d, e)).2 = l2.getD i e := by
  have h2 : i < l2.length := by
    rw [List.length_zip] at hi
    exact lt_of_lt_of_le hi (Nat.min_le_right _ _)
  rw [List.getD_eq_getElem _ _ hi, List.getElem_zip, List.getD_eq_getElem _ _ h2]

theorem ipp_fromBytes_roundtrip (Lv Rv : List (List Nat)) (a b : ZMod ell)
    (hL : ∀ L ∈ Lv, L.length = 32) (hR : ∀ R ∈ Rv, R.length = 32)
    (hk : Rv.length = Lv.length) :
    InnerProductProof.fromBytes
        (((Lv.zip Rv).flatMap (fun lr => [lr.1, lr.2]) ++
          [scalarToBytes a, scalarToBytes b]).flatten) =
      .ok ⟨Lv, Rv, a, b⟩ := by
  have hziplen : (Lv.zip Rv).length = Lv.length := by
    rw [List.length_zip, hk, Nat.min_self]
  have hmidlen : ((Lv.zip Rv).flatMap (fun lr => [lr.1, lr.2])).length = 2 * Lv.length := by
    rw [pairFlatMap_length, hziplen]
  have hmid32 : ∀ x ∈ (Lv.zip Rv).flatMap (fun lr => [lr.1, lr.2]), x.length = 32 := by
    intro x hx
    rcases List.mem_flatMap.mp hx with ⟨lr, hlr, hxin⟩
    have hmem := List.of_mem_zip hlr
    simp only [List.mem_cons, List.not_mem_nil, or_false] at hxin
    rcases hxin with rfl | rfl
    · exact hL _ hmem.1
    · exact hR _ hmem.2
  have hall : ∀ x ∈ (Lv.zip Rv).flatMap (fun lr => [lr.1, lr.2]) ++
      [scalarToBytes a, scalarToBytes b], x.length = 32 := by
    intro x hx
    rcases List.mem_append.mp hx with hx | hx
    · exact hmid32 x hx
    · simp only [List.mem_cons, List.not_mem_nil, or_false] at hx
      rcases hx with rfl | rfl <;> exact scalarToBytes_length _
  have hblen : ((Lv.zip Rv).flatMap (fun lr => [lr.1, lr.2]) ++
      [scalarToBytes a, scalarToBytes b]).length = 2 * Lv.length + 2 := by
    rw [List.length_append, hmidlen]
    rfl
  have hflatlen : (((Lv.zip Rv).flatMap (fun lr => [lr.1, lr.2]) ++
      [scalarToBytes a, scalarToBytes b]).flatten).length = 32 * (2 * Lv.length + 2) := by
    rw [flatten32_length _ hall, hblen]
  unfold InnerProductProof.fromBytes
  rw [if_neg (by rw [hflatlen]; omega)]
  simp only [hflatlen]
  rw [show 32 * (2 * Lv.length + 2) / 32 = 2 * Lv.length + 2 by omega]
  rw [if_neg (by omega), if_neg (by omega)]
  rw [show (2 * Lv.length + 2 - 2) / 2 = Lv.length by omega]
  have hLs : (List.range Lv.length).map
      (fun i => chunk (2 * i) (((Lv.zip Rv).flatMap (fun lr => [lr.1, lr.2]) ++
        [scalarToBytes a, scalarToBytes b]).flatten)) = Lv := by
    have hcg : ∀ i ∈ List.range Lv.length,
        chunk (2 * i) (((Lv.zip Rv).flatMap (fun lr => [lr.1, lr.2]) ++
          [scalarToBytes a, scalarToBytes b]).flatten) = Lv.getD i [] := by
      intro i hi
      have hik : i < Lv.length := List.mem_range.mp hi
      rw [chunk_flatten32 _ hall (2 * i) (by rw [hblen]; omega)]
      rw [List.getD_append _ _ [] _ (by rw [hmidlen]; omega)]
      rw [pairFlatMap_getD_even _ [] i (by rw [hziplen]; omega)]
      rw [zip_getD_fst _ _ _ _ i (by rw [hziplen]; omega)]
    rw [List.map_congr_left hcg]
    exact map_getD_range Lv []
  have hRs : (List.range Lv.length).map
      (fun i => chunk (2 * i + 1) (((Lv.zip Rv).flatMap (fun lr => [lr.1, lr.2]) ++
        [scalarToBytes a, scalarToBytes b]).flatten)) = Rv := by
    have hcg : ∀ i ∈ List.range Lv.length,
        chunk (2 * i + 1) (((Lv.zip Rv).flatMap (fun lr => [lr.1, lr.2]) ++
          [scalarToBytes a, scalarToBytes b]).flatten) = Rv.getD i [] := by
      intro i hi
      have hik : i < Lv.length := List.mem_range.mp hi
      rw [chunk_flatten32 _ hall (2 * i + 1) (by rw [hblen]; omega)]
      rw [List.getD_append _ _ [] _ (by rw [hmidlen]; omega)]
      rw [pairFlatMap_getD_odd _ [] i (by rw [hziplen]; omega)]
      rw [zip_getD_snd _ _ _ _ i (by rw [hziplen]; omega)]
    rw [List.map_congr_left hcg]
    rw [show Lv.length = Rv.length from hk.symm]
    exact map_getD_range Rv []
  have hca : chunk (2 * Lv.length) (((Lv.zip Rv).flatMap (fun lr => [lr.1, lr.2]) ++
      [scalarToBytes a, scalarToBytes b]).flatten) = scalarToBytes a := by
    rw [chunk_flatten32 _ hall (2 * Lv.length) (by rw [hblen]; omega)]
    rw [List.getD_append_right _ _ [] _ (by rw [hmidlen])]
    rw [hmidlen, Nat.sub_self]
    rfl
  have hcb : chunk (2 * Lv.length + 1) (((Lv.zip Rv).flatMap (fun lr => [lr.1, lr.2]) ++
      [scalarToBytes a, scalarToBytes b]).flatten) = scalarToBytes b := by
    rw [chunk_flatten32 _ hall (2 * Lv.length + 1) (by rw [hblen]; omega)]
    rw [List.getD_append_right _ _ [] _ (by rw [hmidlen]; omega)]
    rw [hmidlen, show 2 * Lv.length + 1 - 2 * Lv.length = 1 by omega]
    rfl
  rw [hLs, hRs, hca, hcb, scalar_roundtrip, scalar_roundtrip]

/-- C9: for every well-formed `RangeProof` for parameters `(n, m)` (32-byte
point encodings, matching `L_vec`/`R_vec` lengths, `n·m = 2^k`),
`from_bytes(to_bytes(p))` succeeds and yields a proof with field-for-field
identical contents (hence one that verifies identically), and `to_bytes(p)`
has length `32·(9 + 2·log₂(n·m))` bytes. -/
theorem C9_roundtrip_and_size (p : RangeProof (ZMod ell) (List Nat)) (n m : Nat)
    (hA : p.A.length = 32) (hS : p.S.length = 32) (hT1 : p.T_1.length = 32)
    (hT2 : p.T_2.length = 32)
    (hL : ∀ L ∈ p.ipp_proof.L_vec, L.length = 32)
    (hR : ∀ R ∈ p.ipp_proof.R_vec, R.length = 32)
    (hk : p.ipp_proof.R_vec.length = p.ipp_proof.L_vec.length)
    (hnm : n * m = 2 ^ p.ipp_proof.L_vec.length) :
    RangeProof.fromBytes p.toBytes = .ok p ∧
      p.toBytes.length = 32 * (9 + 2 * Nat.log2 (n * m)) := by
  obtain ⟨A, S, T1, T2, tx, txb, eb, Lv, Rv, a, b⟩ := p
  dsimp only at hA hS hT1 hT2 hL hR hk hnm ⊢
  have hziplen : (Lv.zip Rv).length = Lv.length := by
    rw [List.length_zip, hk, Nat.min_self]
  have hmidlen : ((Lv.zip Rv).flatMap (fun lr => [lr.1, lr.2])).length = 2 * Lv.length := by
    rw [pairFlatMap_length, hziplen]
  have hmid32 : ∀ x ∈ (Lv.zip Rv).flatMap (fun lr => [lr.1, lr.2]), x.length = 32 := by
    intro x hx
    rcases List.mem_flatMap.mp hx with ⟨lr, hlr, hxin⟩
    have hmem := List.of_mem_zip hlr
    simp only [List.mem_cons, List.not_mem_nil, or_false] at hxin
    rcases hxin with rfl | rfl
    · exact hL _ hmem.1
    · exact hR _ hmem.2
  have hall : ∀ x ∈ [A, S, T1, T2, scalarToBytes tx, scalarToBytes txb, scalarToBytes eb] ++
      ((Lv.zip Rv).flatMap (fun lr => [lr.1, lr.2]) ++
        [scalarToBytes a, scalarToBytes b]), x.length = 32 := by
    intro x hx
    rcases List.mem_append.mp hx with hx | hx
    · simp only [List.mem_cons, List.not_mem_nil, or_false] at hx
      rcases hx with rfl | rfl | rfl | rfl | rfl | rfl | rfl
      · exact hA
      · exact hS
      · exact hT1
      · exact hT2
      · exact scalarToBytes_length _
      · exact scalarToBytes_length _
      · exact scalarToBytes_length _
    · rcases List.mem_append.mp hx with hx | hx
      · exact hmid32 x hx
      · simp only [List.mem_cons, List.not_mem_nil, or_false] at hx
        rcases hx with rfl | rfl <;> exact scalarToBytes_length _
  have hBllen : ([A, S, T1, T2, scalarToBytes tx, scalarToBytes txb, scalarToBytes eb] ++
      ((Lv.zip Rv).flatMap (fun lr => [lr.1, lr.2]) ++
        [scalarToBytes a, scalarToBytes b])).length = 9 + 2 * Lv.length := by
    simp only [List.length_append, List.length_cons, List.length_nil, hmidlen]
    omega
  have hflatlen : (([A, S, T1, T2, scalarToBytes tx, scalarToBytes txb, scalarToBytes eb] ++
      ((Lv.zip Rv).flatMap (fun lr => [lr.1, lr.2]) ++
        [scalarToBytes a, scalarToBytes b])).flatten).length = 32 * (9 + 2 * Lv.length) := by
    rw [flatten32_length _ hall, hBllen]
  have hflat : RangeProof.toBytes ⟨A, S, T1, T2, tx, txb, eb, ⟨Lv, Rv, a, b⟩⟩ =
      ([A, S, T1, T2, scalarToBytes tx, scalarToBytes txb, scalarToBytes eb] ++
        ((Lv.zip Rv).flatMap (fun lr => [lr.1, lr.2]) ++
          [scalarToBytes a, scalarToBytes b])).flatten := by
    simp only [RangeProof.toBytes, InnerProductProof.toBytes]
    rw [flatten_map_pair]
    simp [List.flatten_append, List.flatten_cons, List.append_assoc]
  have hch : ∀ i, i < 9 + 2 * Lv.length →
      chunk i (([A, S, T1, T2, scalarToBytes tx, scalarToBytes txb, scalarToBytes eb] ++
        ((Lv.zip Rv).flatMap (fun lr => [lr.1, lr.2]) ++
          [scalarToBytes a, scalarToBytes b])).flatten) =
        ([A, S, T1, T2, scalarToBytes tx, scalarToBytes txb, scalarToBytes eb] ++
          ((Lv.zip Rv).flatMap (fun lr => [lr.1, lr.2]) ++
            [scalarToBytes a, scalarToBytes b])).getD i [] := by
    intro i hi
    exact chunk_flatten32 _ hall i (by rw [hBllen]; exact hi)
  have hdrop : (([A, S, T1, T2, scalarToBytes tx, scalarToBytes txb, scalarToBytes eb] ++
      ((Lv.zip Rv).flatMap (fun lr => [lr.1, lr.2]) ++
        [scalarToBytes a, scalarToBytes b])).flatten).drop (7 * 32) =
      ((Lv.zip Rv).flatMap (fun lr => [lr.1, lr.2]) ++
        [scalarToBytes a, scalarToBytes b]).flatten := by
    rw [show (7 * 32 : Nat) = 32 * 7 by norm_num, flatten32_drop _ hall 7]
    rfl
  constructor
  · rw [hflat]
    unfold RangeProof.fromBytes
    rw [if_neg (by rw [hflatlen]; omega), if_neg (by rw [hflatlen]; omega)]
    rw [hch 4 (by omega), hch 5 (by omega), hch 6 (by omega)]
    rw [show ([A, S, T1, T2, scalarToBytes tx, scalarToBytes txb, scalarToBytes eb] ++
      ((Lv.zip Rv).flatMap (fun lr => [lr.1, lr.2]) ++
        [scalarToBytes a, scalarToBytes b])).getD 4 [] = scalarToBytes tx from rfl]
    rw [show ([A, S, T1, T2, scalarToBytes tx, scalarToBytes txb, scalarToBytes eb] ++
      ((Lv.zip Rv).flatMap (fun lr => [lr.1, lr.2]) ++
        [scalarToBytes a, scalarToBytes b])).getD 5 [] = scalarToBytes txb from rfl]
    rw [show ([A, S, T1, T2, scalarToBytes tx, scalarToBytes txb, scalarToBytes eb] ++
      ((Lv.zip Rv).flatMap (fun lr => [lr.1, lr.2]) ++
        [scalarToBytes a, scalarToBytes b])).getD 6 [] = scalarToBytes eb from rfl]
    rw [scalar_roundtrip, scalar_roundtrip, scalar_roundtrip]
    rw [hdrop, ipp_fromBytes_roundtrip Lv Rv a b hL hR hk]
    rw [hch 0 (by omega), hch 1 (by omega), hch 2 (by omega), hch 3 (by omega)]
    rfl
  · rw [hflat, hflatlen, hnm, Nat.log2_eq_log_two, Nat.log_pow (by norm_num)]

theorem ipp_fromBytes_characterization (sec : List Nat) :
    (InnerProductProof.fromBytes sec = .error .FormatError ↔
      (¬∃ k, sec.length = 32 * (2 * k + 2)) ∨
      scalarFromCanonicalBytes (chunk (2 * ((sec.length / 32 - 2) / 2)) sec) = none ∨
      scalarFromCanonicalBytes (chunk (2 * ((sec.length / 32 - 2) / 2) + 1) sec) = none) ∧
    (∀ out : InnerProductProof (ZMod ell) (List Nat),
      InnerProductProof.fromBytes sec = .ok out →
      out.L_vec = (List.range ((sec.length / 32 - 2) / 2)).map (fun i => chunk (2 * i) sec) ∧
      out.R_vec = (List.range ((sec.length / 32 - 2) / 2)).map
        (fun i => chunk (2 * i + 1) sec) ∧
      scalarFromCanonicalBytes (chunk (2 * ((sec.length / 32 - 2) / 2)) sec) = some out.a ∧
      scalarFromCanonicalBytes (chunk (2 * ((sec.length / 32 - 2) / 2) + 1) sec) =
        some out.b) ∧
    (∀ e, InnerProductProof.fromBytes sec = .error e → e = .FormatError) := by
  by_cases hA : sec.length % 32 = 0
  · by_cases h3 : sec.length / 32 < 2
    · have herr : InnerProductProof.fromBytes sec = .error .FormatError := by
        unfold InnerProductProof.fromBytes
        rw [if_neg (by omega)]
        simp only []
        rw [if_pos h3]
      rw [herr]
      refine ⟨?_, ?_, ?_⟩
      · refine iff_of_true rfl (Or.inl ?_)
        rintro ⟨k, hk⟩
        omega
      · intro out h
        simp at h
      · intro e h
        injection h with h2
        exact h2.symm
    · by_cases h4 : sec.length / 32 % 2 = 0
      · cases hca : scalarFromCanonicalBytes (chunk (2 * ((sec.length / 32 - 2) / 2)) sec) with
        | none =>
            have herr : InnerProductProof.fromBytes sec = .error .FormatError := by
              unfold InnerProductProof.fromBytes
              rw [if_neg (by omega)]
              simp only []
              rw [if_neg h3, if_neg (by omega)]
              simp only [hca]
            rw [herr]
            refine ⟨iff_of_true rfl (Or.inr (Or.inl rfl)), ?_, ?_⟩
            · intro out h
              simp at h
            · intro e h
              injection h with h2
              exact h2.symm
        | some a =>
            cases hcb : scalarFromCanonicalBytes
                (chunk (2 * ((sec.length / 32 - 2) / 2) + 1) sec) with
            | none =>
                have herr : InnerProductProof.fromBytes sec = .error .FormatError := by
                  unfold InnerProductProof.fromBytes
                  rw [if_neg (by omega)]
                  simp only []
                  rw [if_neg h3, if_neg (by omega)]
                  simp only [hca, hcb]
                rw [herr]
                refine ⟨iff_of_true rfl (Or.inr (Or.inr rfl)), ?_, ?_⟩
                · intro out h
                  simp at h
                · intro e h
                  injection h with h2
                  exact h2.symm
            | some b =>
                have hok : InnerProductProof.fromBytes sec =
                    .ok ⟨(List.range ((sec.length / 32 - 2) / 2)).map
                        (fun i => chunk (2 * i) sec),
                      (List.range ((sec.length / 32 - 2) / 2)).map
                        (fun i => chunk (2 * i + 1) sec), a, b⟩ := by
                  unfold InnerProductProof.fromBytes
                  rw [if_neg (by omega)]
                  simp only []
                  rw [if_neg h3, if_neg (by omega)]
                  simp only [hca, hcb]
                rw [hok]
                refine ⟨?_, ?_, ?_⟩
                · refine iff_of_false (by simp) ?_
                  push_neg
                  exact ⟨⟨(sec.length / 32 - 2) / 2, by omega⟩, by simp, by simp⟩
                · intro out h
                  injection h with h2
                  rw [← h2]
                  exact ⟨rfl, rfl, rfl, rfl⟩
                · intro e h
                  simp at h
      · have herr : InnerProductProof.fromBytes sec = .error .FormatError := by
          unfold InnerProductProof.fromBytes
          rw [if_neg (by omega)]
          simp only []
          rw [if_neg h3, if_pos (by omega)]
        rw [herr]
        refine ⟨?_, ?_, ?_⟩
        · refine iff_of_true rfl (Or.inl ?_)
          rintro ⟨k, hk⟩
          omega
        · intro out h
          simp at h
        · intro e h
          injection h with h2
          exact h2.symm
  · have herr : InnerProductProof.fromBytes sec = .error .FormatError := by
      unfold InnerProductProof.fromBytes
      rw [if_pos (by omega)]
    rw [herr]
    refine ⟨?_, ?_, ?_⟩
    · refine iff_of_true rfl (Or.inl ?_)
      rintro ⟨k, hk⟩
      omega
    · intro out h
      simp at h
    · intro e h
      injection h with h2
      exact h2.symm

/-- C8: `RangeProof::from_bytes` fails with `FormatError` exactly when the
length is not a multiple of 32, or the length is below `7·32`, or the IPA
section length is not `32·(2k+2)` for some `k ≥ 0`, or any scalar in the
slice is not a canonical field-element encoding; otherwise it returns a
`RangeProof` whose fields are read in the fixed order `A, S, T₁, T₂, t_x,
t_x_blinding, e_blinding`, then the inner-product proof. -/
theorem C8_fromBytes_errors (slice : List Nat) :
    (RangeProof.fromBytes slice = .error .FormatError ↔
      slice.length % 32 ≠ 0 ∨ slice.length < 7 * 32 ∨
      (¬∃ k, slice.length - 7 * 32 = 32 * (2 * k + 2)) ∨
      scalarFromCanonicalBytes (chunk 4 slice) = none ∨
      scalarFromCanonicalBytes (chunk 5 slice) = none ∨
      scalarFromCanonicalBytes (chunk 6 slice) = none ∨
      scalarFromCanonicalBytes
        (chunk (2 * (((slice.length - 7 * 32) / 32 - 2) / 2)) (slice.drop (7 * 32))) = none ∨
      scalarFromCanonicalBytes
        (chunk (2 * (((slice.length - 7 * 32) / 32 - 2) / 2) + 1)
          (slice.drop (7 * 32))) = none) ∧
    (∀ out : RangeProof (ZMod ell) (List Nat), RangeProof.fromBytes slice = .ok out →
      out.A = chunk 0 slice ∧ out.S = chunk 1 slice ∧ out.T_1 = chunk 2 slice ∧
      out.T_2 = chunk 3 slice ∧
      scalarFromCanonicalBytes (chunk 4 slice) = some out.t_x ∧
      scalarFromCanonicalBytes (chunk 5 slice) = some out.t_x_blinding ∧
      scalarFromCanonicalBytes (chunk 6 slice) = some out.e_blinding ∧
      out.ipp_proof.L_vec = (List.range (((slice.length - 7 * 32) / 32 - 2) / 2)).map
        (fun i => chunk (2 * i) (slice.drop (7 * 32))) ∧
      out.ipp_proof.R_vec = (List.range (((slice.length - 7 * 32) / 32 - 2) / 2)).map
        (fun i => chunk (2 * i + 1) (slice.drop (7 * 32))) ∧
      scalarFromCanonicalBytes
        (chunk (2 * (((slice.length - 7 * 32) / 32 - 2) / 2)) (slice.drop (7 * 32))) =
        some out.ipp_proof.a ∧
      scalarFromCanonicalBytes
        (chunk (2 * (((slice.length - 7 * 32) / 32 - 2) / 2) + 1) (slice.drop (7 * 32))) =
        some out.ipp_proof.b) := by
  by_cases h1 : slice.length % 32 = 0
  · by_cases h2 : slice.length < 7 * 32
    · have herr : RangeProof.fromBytes slice = .error .FormatError := by
        unfold RangeProof.fromBytes
        rw [if_neg (by omega), if_pos h2]
      rw [herr]
      refine ⟨iff_of_true rfl (Or.inr (Or.inl h2)), ?_⟩
      intro out h
      simp at h
    · cases hc4 : scalarFromCanonicalBytes (chunk 4 slice) with
      | none =>
          have herr : RangeProof.fromBytes slice = .error .FormatError := by
            unfold RangeProof.fromBytes
            rw [if_neg (by omega), if_neg h2, hc4]
          rw [herr]
          refine ⟨iff_of_true rfl (Or.inr (Or.inr (Or.inr (Or.inl rfl)))), ?_⟩
          intro out h
          simp at h
      | some t1 =>
          cases hc5 : scalarFromCanonicalBytes (chunk 5 slice) with
          | none =>
              have herr : RangeProof.fromBytes slice = .error .FormatError := by
                unfold RangeProof.fromBytes
                rw [if_neg (by omega), if_neg h2, hc4, hc5]
              rw [herr]
              refine ⟨iff_of_true rfl
                (Or.inr (Or.inr (Or.inr (Or.inr (Or.inl rfl))))), ?_⟩
              intro out h
              simp at h
          | some t2 =>
              cases hc6 : scalarFromCanonicalBytes (chunk 6 slice) with
              | none =>
                  have herr : RangeProof.fromBytes slice = .error .FormatError := by
                    unfold RangeProof.fromBytes
                    rw [if_neg (by omega), if_neg h2, hc4, hc5, hc6]
                  rw [herr]
                  refine ⟨iff_of_true rfl
                    (Or.inr (Or.inr (Or.inr (Or.inr (Or.inr (Or.inl rfl)))))), ?_⟩
                  intro out h
                  simp at h
              | some t3 =>
                  have hipp := ipp_fromBytes_characterization (slice.drop (7 * 32))
                  rw [List.length_drop] at hipp
                  cases hie : InnerProductProof.fromBytes (slice.drop (7 * 32)) with
                  | error e =>
                      have he : e = .FormatError := hipp.2.2 e hie
                      subst he
                      have herr : RangeProof.fromBytes slice = .error .FormatError := by
                        unfold RangeProof.fromBytes
                        rw [if_neg (by omega), if_neg h2, hc4, hc5, hc6, hie]
                      rw [herr]
                      refine ⟨iff_of_true rfl ?_, ?_⟩
                      · rcases hipp.1.mp hie with hd | hd | hd
                        · exact Or.inr (Or.inr (Or.inl hd))
                        · exact Or.inr (Or.inr (Or.inr (Or.inr (Or.inr (Or.inr (Or.inl hd))))))
                        · exact Or.inr (Or.inr (Or.inr (Or.inr (Or.inr
                            (Or.inr (Or.inr hd))))))
                      · intro out h
                        simp at h
                  | ok ipp =>
                      have hfields := hipp.2.1 ipp hie
                      have hnotdisj : ¬((¬∃ k, slice.length - 7 * 32 = 32 * (2 * k + 2)) ∨
                          scalarFromCanonicalBytes
                            (chunk (2 * (((slice.length - 7 * 32) / 32 - 2) / 2))
                              (slice.drop (7 * 32))) = none ∨
                          scalarFromCanonicalBytes
                            (chunk (2 * (((slice.length - 7 * 32) / 32 - 2) / 2) + 1)
                              (slice.drop (7 * 32))) = none) := by
                        intro hd
                        have := hipp.1.mpr hd
                        rw [hie] at this
                        simp at this
                      have hok : RangeProof.fromBytes slice =
                          .ok ⟨chunk 0 slice, chunk 1 slice, chunk 2 slice, chunk 3 slice,
                            t1, t2, t3, ipp⟩ := by
                        unfold RangeProof.fromBytes
                        rw [if_neg (by omega), if_neg h2, hc4, hc5, hc6, hie]
                      rw [hok]
                      push_neg at hnotdisj
                      refine ⟨iff_of_false (by simp) ?_, ?_⟩
                      · intro hd
                        rcases hd with hd | hd | hd | hd | hd | hd | hd | hd
                        · exact hd h1
                        · exact h2 hd
                        · exact hd hnotdisj.1
                        · simp at hd
                        · simp at hd
                        · simp at hd
                        · exact hnotdisj.2.1 hd
                        · exact hnotdisj.2.2 hd
                      · intro out h
                        injection h with h2'
                        rw [← h2']
                        exact ⟨rfl, rfl, rfl, rfl, rfl, rfl, rfl, hfields.1, hfields.2.1,
                          hfields.2.2.1, hfields.2.2.2⟩
  · have herr : RangeProof.fromBytes slice = .error .FormatError := by
      unfold RangeProof.fromBytes
      rw [if_pos h1]
    rw [herr]
    refine ⟨iff_of_true rfl (Or.inl h1), ?_⟩
    intro out h
    simp at h

/-- Witness for C8: the empty slice (length 0, below `7·32`) is rejected with
`FormatError`, by the characterization theorem. -/
theorem C8_fromBytes_errors_witness :
    RangeProof.fromBytes [] = .error .FormatError :=
  (C8_fromBytes_errors []).1.mpr (Or.inr (Or.inl (by decide)))

/-- Witness for C9 at a concrete proof over the real scalar field
(`k = 0`, `n = m = 1`, all-zero 32-byte point encodings). -/
theorem C9_roundtrip_and_size_witness :
    RangeProof.fromBytes
        (RangeProof.toBytes ⟨List.replicate 32 0, List.replicate 32 0, List.replicate 32 0,
          List.replicate 32 0, 1, 2, 3, ⟨[], [], 4, 5⟩⟩) =
      .ok ⟨List.replicate 32 0, List.replicate 32 0, List.replicate 32 0,
        List.replicate 32 0, 1, 2, 3, ⟨[], [], 4, 5⟩⟩ ∧
    (RangeProof.toBytes ⟨List.replicate 32 0, List.replicate 32 0, List.replicate 32 0,
        List.replicate 32 0, 1, 2, 3, ⟨[], [], 4, 5⟩⟩).length =
      32 * (9 + 2 * Nat.log2 (1 * 1)) := by
  exact C9_roundtrip_and_size
    (⟨List.replicate 32 0, List.replicate 32 0, List.replicate 32 0,
      List.replicate 32 0, 1, 2, 3, ⟨[], [], 4, 5⟩⟩ : RangeProof (ZMod ell) (List Nat))
    1 1 (by simp) (by simp) (by simp) (by simp) (by simp) (by simp) (by simp) (by decide)

/-! Lemmas for the mega-check refinement (C1). -/

theorem ippChallenges_fst_length {F TT CP : Type} [Field F]
    (ops : TranscriptOps TT CP F) (l : List (CP × CP)) (t : TT) :
    (ippChallenges ops l t).1.length = l.length := by
  induction l generalizing t with
  | nil => rfl
  | cons x rest ih =>
      obtain ⟨L, R⟩ := x
      simp [ippChallenges, ih]

theorem verifyChallenges_us_length {F TT CP : Type} [Field F] {Pt : Type}
    [AddCommGroup Pt] [Module F Pt] (ops : TranscriptOps TT CP F) (compress : Pt → CP)
    (proof : RangeProof F CP) (vcs : List Pt) (t : TT) (n m : Nat) :
    (proof.verifyChallenges ops compress vcs t n m).us.length =
      min proof.ipp_proof.L_vec.length proof.ipp_proof.R_vec.length := by
  simp [RangeProof.verifyChallenges, ippChallenges_fst_length, List.length_zip]

theorem sVec_length {F : Type} [Field F] (us : List F) :
    (sVec us).length = 2 ^ us.length := by
  simp [sVec]

theorem collectSome_map_some {Pt : Type} (l : List Pt) :
    collectSome (l.map some) = some l := by
  induction l with
  | nil => rfl
  | cons x xs ih => simp [collectSome, ih]

theorem optionalMSM_map_some {F Pt : Type} [Field F] [AddCommGroup Pt] [Module F Pt]
    (scalars : List F) (points : List Pt) :
    optionalMSM scalars (points.map some) =
      some ((List.zipWith (fun a P => a • P) scalars points).sum) := by
  simp [optionalMSM, collectSome_map_some]

theorem zipWith_smul_sum {F Pt : Type} [Field F] [AddCommGroup Pt] [Module F Pt]
    (as : List F) (ps : List Pt) (n : Nat) (ha : as.length = n) (hp : ps.length = n) :
    (List.zipWith (fun a P => a • P) as ps).sum =
      ∑ i ∈ Finset.range n, as.getD i 0 • ps.getD i 0 := by
  induction n generalizing as ps with
  | zero =>
      have ha' : as = [] := List.eq_nil_of_length_eq_zero ha
      simp [ha']
  | succ n ih =>
      cases as with
      | nil => simp at ha
      | cons a as' =>
          cases ps with
          | nil => simp at hp
          | cons p ps' =>
              rw [List.zipWith_cons_cons, List.sum_cons, Finset.sum_range_succ']
              simp only [List.getD_cons_succ, List.getD_cons_zero]
              rw [ih as' ps' (by simpa using ha) (by simpa using hp)]
              exact add_comm _ _

theorem concat_z_and_2_eq {F : Type} [Field F] (z : F) (n m : Nat) :
    ((List.range m).map (fun j => ((List.range n).map (fun i => (2 : F) ^ i)).map
      (fun exp_2 => exp_2 * z ^ j))).flatten =
    (List.range (m * n)).map (fun i => 2 ^ (i % n) * z ^ (i / n)) := by
  induction m with
  | zero => simp
  | succ m ih =>
      rw [List.range_succ, List.map_append, List.flatten_append, ih]
      rw [show (m + 1) * n = m * n + n by ring, List.range_add, List.map_append]
      congr 1
      simp only [List.map_cons, List.map_nil, List.flatten_cons, List.flatten_nil,
        List.append_nil, List.map_map]
      apply List.map_congr_left
      intro i hi
      have hin : i < n := List.mem_range.mp hi
      have hnpos : 0 < n := Nat.lt_of_le_of_lt (Nat.zero_le i) hin
      simp only [Function.comp]
      have hmod : (m * n + i) % n = i := by
        rw [Nat.mul_comm m n, Nat.mul_add_mod]
        exact Nat.mod_eq_of_lt hin
      have hdivq : (m * n + i) / n = m := by
        rw [Nat.mul_comm m n, Nat.mul_add_div hnpos, Nat.div_eq_of_lt hin]
        omega
      rw [hmod, hdivq]

/-- C1: for every RangeProof, list of value commitments and bitsize `n` that
pass the validation checks (with all stored points decompressible and the
proof shaped for `(n, m)`), `RangeProof::verify` returns Ok exactly when the
single multi-scalar multiplication over the specification's coefficient/base
table (`specMegaCheck`) equals the group identity; in particular the
coefficient paired with `B` is `w·(t_x − a·b) + c·(δ(n,m,y,z) − t_x)`, the
coefficient paired with `B_blinding` is `−e_blinding − c·t_x_blinding`, and
the coefficient paired with each `V_j` is `c·z²·z^j`, where `y, z, x, w` are
the challenges replayed from the transcript and `c` is the random batching
scalar. -/
theorem C1_verify_iff_megacheck {F TT CP : Type} [Field F] [DecidableEq F] {Pt : Type}
    [AddCommGroup Pt] [Module F Pt] [DecidableEq Pt]
    (ops : TranscriptOps TT CP F) (compress : Pt → CP) (decompress : CP → Option Pt)
    (gens : Generators Pt) (proof : RangeProof F CP) (vcs : List Pt) (t : TT) (c : F)
    (n k : Nat) (A' S' T1' T2' : Pt) (Ls Rs : List Pt)
    (hn : n = 8 ∨ n = 16 ∨ n = 32 ∨ n = 64)
    (hg : ¬gens.gens_capacity < n) (hp : ¬gens.party_capacity < vcs.length)
    (hA : decompress proof.A = some A') (hS : decompress proof.S = some S')
    (hT1 : decompress proof.T_1 = some T1') (hT2 : decompress proof.T_2 = some T2')
    (hLd : proof.ipp_proof.L_vec.map decompress = Ls.map some)
    (hRd : proof.ipp_proof.R_vec.map decompress = Rs.map some)
    (hkL : proof.ipp_proof.L_vec.length = k) (hkR : proof.ipp_proof.R_vec.length = k)
    (hnm : 2 ^ k = n * vcs.length)
    (hG : (gens.G n vcs.length).length = n * vcs.length)
    (hH : (gens.H n vcs.length).length = n * vcs.length) :
    proof.verify ops compress decompress gens vcs t c n = .ok () ↔
      specMegaCheck A' S' T1' T2' gens.pedersen_gens.B_blinding gens.pedersen_gens.B
        Ls Rs (gens.G n vcs.length) (gens.H n vcs.length) vcs
        (proof.verifyChallenges ops compress vcs t n vcs.length).y
        (proof.verifyChallenges ops compress vcs t n vcs.length).z
        (proof.verifyChallenges ops compress vcs t n vcs.length).x
        (proof.verifyChallenges ops compress vcs t n vcs.length).w
        c proof.t_x proof.t_x_blinding proof.e_blinding
        proof.ipp_proof.a proof.ipp_proof.b
        (proof.verifyChallenges ops compress vcs t n vcs.length).us
        (sVec (proof.verifyChallenges ops compress vcs t n vcs.length).us)
        n vcs.length k = 0 := by
  have hml : Ls.length = k := by
    have hh := congrArg List.length hLd
    simpa [hkL] using hh.symm
  have hmr : Rs.length = k := by
    have hh := congrArg List.length hRd
    simpa [hkR] using hh.symm
  have huslen : (proof.verifyChallenges ops compress vcs t n vcs.length).us.length = k := by
    rw [verifyChallenges_us_length, hkL, hkR, Nat.min_self]
  simp only [RangeProof.verify]
  rw [if_neg (not_not_intro hn), if_neg hg, if_neg hp]
  set ch := proof.verifyChallenges ops compress vcs t n vcs.length with hchdef
  have hslen : (sVec ch.us).length = n * vcs.length := by
    rw [sVec_length, huslen, hnm]
  have hpts : verifyPoints decompress gens proof vcs n vcs.length =
      (A' :: S' :: T1' :: T2' ::
        (Ls ++ Rs ++ [gens.pedersen_gens.B_blinding, gens.pedersen_gens.B] ++
          gens.G n vcs.length ++ gens.H n vcs.length ++ vcs)).map some := by
    unfold verifyPoints
    rw [hA, hS, hT1, hT2, hLd, hRd]
    simp [List.map_append]
  rw [hpts, optionalMSM_map_some]
  have heq : (List.zipWith (fun a P => a • P)
      (verifyScalars proof ch c n vcs.length)
      (A' :: S' :: T1' :: T2' ::
        (Ls ++ Rs ++ [gens.pedersen_gens.B_blinding, gens.pedersen_gens.B] ++
          gens.G n vcs.length ++ gens.H n vcs.length ++ vcs))).sum =
      specMegaCheck A' S' T1' T2' gens.pedersen_gens.B_blinding gens.pedersen_gens.B
        Ls Rs (gens.G n vcs.length) (gens.H n vcs.length) vcs
        ch.y ch.z ch.x ch.w c proof.t_x proof.t_x_blinding proof.e_blinding
        proof.ipp_proof.a proof.ipp_proof.b ch.us (sVec ch.us) n vcs.length k := by
    simp only [verifyScalars]
    rw [concat_z_and_2_eq ch.z n vcs.length]
    have hx1 : (List.map (fun u => u * u) ch.us).length = k := by simp [huslen]
    have hx2 : (List.map (fun u => u⁻¹ * u⁻¹) ch.us).length = k := by simp [huslen]
    have hgl : (List.map (fun s_i => -ch.z - proof.ipp_proof.a * s_i) (sVec ch.us)).length =
        n * vcs.length := by
      simp [hslen]
    have hhl : (List.zipWith
        (fun (p : F × F) z_and_2 => ch.z + p.2 * (ch.z * ch.z * z_and_2 -
          proof.ipp_proof.b * p.1))
        ((sVec ch.us).reverse.zip
          ((List.range (sVec ch.us).reverse.length).map (fun i => ch.y⁻¹ ^ i)))
        ((List.range (vcs.length * n)).map
          (fun i => 2 ^ (i % n) * ch.z ^ (i / n)))).length = n * vcs.length := by
      simp only [List.length_zipWith, List.length_zip, List.length_map, List.length_range,
        List.length_reverse, hslen, Nat.min_self]
      rw [Nat.mul_comm vcs.length n, Nat.min_self]
    have hc2 : (List.map (fun u => u * u) ch.us ++
        List.map (fun u => u⁻¹ * u⁻¹) ch.us).length = (Ls ++ Rs).length := by
      simp [hx1, hx2, hml, hmr]
    have hc3 : ((List.map (fun u => u * u) ch.us ++ List.map (fun u => u⁻¹ * u⁻¹) ch.us) ++
        [-proof.e_blinding - c * proof.t_x_blinding,
          ch.w * (proof.t_x - proof.ipp_proof.a * proof.ipp_proof.b) +
            c * (delta n vcs.length ch.y ch.z - proof.t_x)]).length =
        ((Ls ++ Rs) ++ [gens.pedersen_gens.B_blinding, gens.pedersen_gens.B]).length := by
      simp [hx1, hx2, hml, hmr]
    have hc1 : (List.map (fun u => u * u) ch.us).length = Ls.length := by rw [hx1, hml]
    have hc4 : ((List.map (fun u => u * u) ch.us ++ List.map (fun u => u⁻¹ * u⁻¹) ch.us ++
        [-proof.e_blinding - c * proof.t_x_blinding,
          ch.w * (proof.t_x - proof.ipp_proof.a * proof.ipp_proof.b) +
            c * (delta n vcs.length ch.y ch.z - proof.t_x)]) ++
        List.map (fun s_i => -ch.z - proof.ipp_proof.a * s_i) (sVec ch.us)).length =
        ((Ls ++ Rs ++ [gens.pedersen_gens.B_blinding, gens.pedersen_gens.B]) ++
          gens.G n vcs.length).length := by
      simp only [List.length_append, List.length_cons, List.length_nil, hx1, hx2, hml, hmr,
        hgl, hG]
    have hc5 : (((List.map (fun u => u * u) ch.us ++ List.map (fun u => u⁻¹ * u⁻¹) ch.us ++
        [-proof.e_blinding - c * proof.t_x_blinding,
          ch.w * (proof.t_x - proof.ipp_proof.a * proof.ipp_proof.b) +
            c * (delta n vcs.length ch.y ch.z - proof.t_x)]) ++
        List.map (fun s_i => -ch.z - proof.ipp_proof.a * s_i) (sVec ch.us)) ++
        List.zipWith (fun (p : F × F) z_and_2 => ch.z + p.2 * (ch.z * ch.z * z_and_2 -
            proof.ipp_proof.b * p.1))
          ((sVec ch.us).reverse.zip
            (List.map (fun i => ch.y⁻¹ ^ i) (List.range (sVec ch.us).reverse.length)))
          (List.map (fun i => 2 ^ (i % n) * ch.z ^ (i / n))
            (List.range (vcs.length * n)))).length =
        (((Ls ++ Rs ++ [gens.pedersen_gens.B_blinding, gens.pedersen_gens.B]) ++
          gens.G n vcs.length) ++ gens.H n vcs.length).length := by
      simp only [List.length_append, List.length_cons, List.length_nil, hx1, hx2, hml, hmr,
        hgl, hhl, hG, hH]
    have hseg1 : (List.zipWith (fun a P => a • P)
        (List.map (fun u => u * u) ch.us) Ls).sum =
        ∑ j ∈ Finset.range k, (ch.us.getD j 0) ^ 2 • Ls.getD j 0 := by
      rw [zipWith_smul_sum _ _ k hx1 hml]
      refine Finset.sum_congr rfl fun j hj => ?_
      have hjk : j < k := Finset.mem_range.mp hj
      have hju : j < ch.us.length := by omega
      congr 1
      rw [List.getD_eq_getElem _ _ (show j < (List.map (fun u => u * u) ch.us).length by
        simpa [huslen] using hjk), List.getElem_map, List.getD_eq_getElem _ _ hju]
      ring
    have hseg2 : (List.zipWith (fun a P => a • P)
        (List.map (fun u => u⁻¹ * u⁻¹) ch.us) Rs).sum =
        ∑ j ∈ Finset.range k, ((ch.us.getD j 0)⁻¹) ^ 2 • Rs.getD j 0 := by
      rw [zipWith_smul_sum _ _ k hx2 hmr]
      refine Finset.sum_congr rfl fun j hj => ?_
      have hjk : j < k := Finset.mem_range.mp hj
      have hju : j < ch.us.length := by omega
      congr 1
      rw [List.getD_eq_getElem _ _ (show j < (List.map (fun u => u⁻¹ * u⁻¹) ch.us).length by
        simpa [huslen] using hjk), List.getElem_map, List.getD_eq_getElem _ _ hju]
      ring
    have hseg4 : (List.zipWith (fun a P => a • P)
        (List.map (fun s_i => -ch.z - proof.ipp_proof.a * s_i) (sVec ch.us))
        (gens.G n vcs.length)).sum =
        ∑ i ∈ Finset.range (n * vcs.length),
          (-ch.z - proof.ipp_proof.a * (sVec ch.us).getD i 0) •
            (gens.G n vcs.length).getD i 0 := by
      rw [zipWith_smul_sum _ _ (n * vcs.length) hgl hG]
      refine Finset.sum_congr rfl fun i hi => ?_
      have hii : i < n * vcs.length := Finset.mem_range.mp hi
      have his : i < (sVec ch.us).length := by omega
      congr 1
      rw [List.getD_eq_getElem _ _ (show i <
          (List.map (fun s_i => -ch.z - proof.ipp_proof.a * s_i) (sVec ch.us)).length by
        simpa [hslen] using hii), List.getElem_map, List.getD_eq_getElem _ _ his]
    have hseg5 : (List.zipWith (fun a P => a • P)
        (List.zipWith (fun (p : F × F) z_and_2 => ch.z + p.2 * (ch.z * ch.z * z_and_2 -
            proof.ipp_proof.b * p.1))
          ((sVec ch.us).reverse.zip
            (List.map (fun i => ch.y⁻¹ ^ i) (List.range (sVec ch.us).reverse.length)))
          (List.map (fun i => 2 ^ (i % n) * ch.z ^ (i / n)) (List.range (vcs.length * n))))
        (gens.H n vcs.length)).sum =
        ∑ i ∈ Finset.range (n * vcs.length),
          (ch.z + ch.y⁻¹ ^ i * (ch.z * ch.z * (ch.z ^ (i / n) * 2 ^ (i % n)) -
            proof.ipp_proof.b * (sVec ch.us).getD (n * vcs.length - 1 - i) 0)) •
            (gens.H n vcs.length).getD i 0 := by
      rw [zipWith_smul_sum _ _ (n * vcs.length) hhl hH]
      refine Finset.sum_congr rfl fun i hi => ?_
      have hii : i < n * vcs.length := Finset.mem_range.mp hi
      congr 1
      have hbig : i < (List.zipWith (fun (p : F × F) z_and_2 => ch.z + p.2 *
          (ch.z * ch.z * z_and_2 - proof.ipp_proof.b * p.1))
          ((sVec ch.us).reverse.zip
            (List.map (fun i => ch.y⁻¹ ^ i) (List.range (sVec ch.us).reverse.length)))
          (List.map (fun i => 2 ^ (i % n) * ch.z ^ (i / n))
            (List.range (vcs.length * n)))).length := by
        rw [hhl]
        exact hii
      have hrev : (sVec ch.us).length - 1 - i < (sVec ch.us).length := by omega
      rw [List.getD_eq_getElem _ _ hbig]
      simp only [List.getElem_zipWith, List.getElem_zip, List.getElem_reverse,
        List.getElem_map, List.getElem_range]
      rw [← List.getD_eq_getElem (sVec ch.us) 0 hrev, hslen]
      ring
    have hseg6 : (List.zipWith (fun a P => a • P)
        (List.map (fun j => c * (ch.z * ch.z) * ch.z ^ j) (List.range vcs.length)) vcs).sum =
        ∑ j ∈ Finset.range vcs.length, (c * (ch.z * ch.z) * ch.z ^ j) • vcs.getD j 0 := by
      rw [zipWith_smul_sum _ _ vcs.length (by simp) rfl]
      refine Finset.sum_congr rfl fun j hj => ?_
      have hjm : j < vcs.length := Finset.mem_range.mp hj
      congr 1
      rw [List.getD_eq_getElem _ _ (show j <
          (List.map (fun j => c * (ch.z * ch.z) * ch.z ^ j) (List.range vcs.length)).length by
        simpa using hjm), List.getElem_map, List.getElem_range]
    rw [List.zipWith_cons_cons, List.zipWith_cons_cons, List.zipWith_cons_cons,
      List.zipWith_cons_cons, List.sum_cons, List.sum_cons, List.sum_cons, List.sum_cons]
    rw [List.zipWith_append _ _ _ _ _ hc5, List.sum_append,
      List.zipWith_append _ _ _ _ _ hc4, List.sum_append,
      List.zipWith_append _ _ _ _ _ hc3, List.sum_append,
      List.zipWith_append _ _ _ _ _ hc2, List.sum_append,
      List.zipWith_append _ _ _ _ _ hc1, List.sum_append]
    rw [hseg1, hseg2, hseg4, hseg5, hseg6]
    simp only [specMegaCheck, List.zipWith_cons_cons, List.zipWith_nil_left, List.sum_cons,
      List.sum_nil, add_zero, one_smul]
    abel
  rw [heq]
  by_cases hz : specMegaCheck A' S' T1' T2' gens.pedersen_gens.B_blinding
      gens.pedersen_gens.B Ls Rs (gens.G n vcs.length) (gens.H n vcs.length) vcs
      ch.y ch.z ch.x ch.w c proof.t_x proof.t_x_blinding proof.e_blinding
      proof.ipp_proof.a proof.ipp_proof.b ch.us (sVec ch.us) n vcs.length k = 0
  · simp [hz]
  · simp [hz]

/-- Witness for C1 at a concrete instance over `ZMod 13` (`n = 8`, `m = 1`,
`k = 3`, every compressed point decompressing to the point 1). -/
theorem C1_verify_iff_megacheck_witness :
    RangeProof.verify trivOps (fun _ => ()) (fun _ => some (1 : ZMod 13)) gensW proofW
        [5] () 2 8 = .ok () ↔
      specMegaCheck 1 1 1 1 gensW.pedersen_gens.B_blinding gensW.pedersen_gens.B
        [1, 1, 1] [1, 1, 1] (gensW.G 8 1) (gensW.H 8 1) [5]
        (proofW.verifyChallenges trivOps (fun _ => ()) [5] () 8 1).y
        (proofW.verifyChallenges trivOps (fun _ => ()) [5] () 8 1).z
        (proofW.verifyChallenges trivOps (fun _ => ()) [5] () 8 1).x
        (proofW.verifyChallenges trivOps (fun _ => ()) [5] () 8 1).w
        2 proofW.t_x proofW.t_x_blinding proofW.e_blinding
        proofW.ipp_proof.a proofW.ipp_proof.b
        (proofW.verifyChallenges trivOps (fun _ => ()) [5] () 8 1).us
        (sVec (proofW.verifyChallenges trivOps (fun _ => ()) [5] () 8 1).us) 8 1 3 = 0 := by
  exact C1_verify_iff_megacheck trivOps (fun _ => ()) (fun _ => some 1) gensW proofW
    [5] () 2 8 3 1 1 1 1 [1, 1, 1] [1, 1, 1] (Or.inl rfl) (by decide) (by decide)
    rfl rfl rfl rfl rfl rfl rfl rfl (by decide) (by decide) (by decide)

end Bulletproofs
